import Mathlib

/-!
Verification development for the chatbot-assistant repository.

The JavaScript source is shallowly embedded in Lean: pure string and list
manipulation is translated directly; filesystem access, the JS regular
expression engine where a pattern is caller-supplied, and the delegated
sub-search calls are abstracted as explicit oracle parameters; each of the
fixed regular expressions of the log-normalization and SQL-extraction code
is implemented as a dedicated deterministic scanner reproducing the
backtracking behaviour of that concrete pattern.  JS strings are modelled
as Lean strings (lists of characters); ASCII case folding models
String.prototype.toLowerCase on the ASCII inputs relevant here.
-/

/-! ## Basic string utilities (JS string primitives) -/

/-- ASCII lower-casing of one character (models toLowerCase on ASCII). -/
def asciiLower (c : Char) : Char :=
  if 'A' ≤ c ∧ c ≤ 'Z' then Char.ofNat (c.toNat + 32) else c

/-- ASCII lower-casing of a character list. -/
def lowerChars (l : List Char) : List Char := l.map asciiLower

/-- ASCII lower-casing of a string. -/
def lowerStr (s : String) : String := String.mk (lowerChars s.data)

/-- JS String.prototype.includes on character lists: does sub occur in text? -/
def hasSub (text sub : List Char) : Bool :=
  match text with
  | [] => sub.isEmpty
  | _ :: rest => sub.isPrefixOf text || hasSub rest sub

/-- JS String.prototype.includes. -/
def jsIncludes (s sub : String) : Bool := hasSub s.data sub.data

/-- JS String.prototype.startsWith on strings. -/
def jsStartsWith (s pre : String) : Bool := pre.data.isPrefixOf s.data

/-- JS String.prototype.endsWith on strings. -/
def jsEndsWith (s suf : String) : Bool := suf.data.reverse.isPrefixOf s.data.reverse

/-- Index of the first occurrence of pat in text at or after start
(JS String.prototype.indexOf; none models the -1 result).  The empty
pattern never reaches this code path and is modelled as no occurrence. -/
def indexOfFrom (text pat : List Char) (start : Nat) : Option Nat :=
  if pat.isEmpty then none
  else go (text.drop start) start
where
  go : List Char → Nat → Option Nat
    | [], _ => none
    | c :: rest, i => if pat.isPrefixOf (c :: rest) then some i else go rest (i + 1)

/-- Replace the first occurrence of pat in s by repl
(JS String.prototype.replace with a string argument). -/
def replaceFirst (s pat repl : String) : String :=
  match indexOfFrom s.data pat.data 0 with
  | none => s
  | some i => String.mk (s.data.take i ++ repl.data ++ s.data.drop (i + pat.data.length))

/-- JS whitespace class \s (ASCII fragment). -/
def isSpaceC (c : Char) : Bool :=
  c = ' ' || c = '\t' || c = '\n' || c = '\r' || c = Char.ofNat 11 || c = Char.ofNat 12

/-- JS String.prototype.trim (ASCII whitespace). -/
def trimChars (l : List Char) : List Char :=
  ((l.dropWhile isSpaceC).reverse.dropWhile isSpaceC).reverse

/-- JS String.prototype.trim. -/
def trimStr (s : String) : String := String.mk (trimChars s.data)

/-! ## Path Guard: PathSecurityValidator (src/security/pathSecurity.js) -/

namespace PathSec

/-- One entry of the blocked-path denylist.  Each source regex is either an
anchored case-insensitive path beginning, a case-insensitive substring, an
anchored case-insensitive ending, or a Windows drive-letter beginning
([A-Z]:\ followed by a fixed case-insensitive tail). -/
inductive Pat where
  | pre (s : String)
  | sub (s : String)
  | suf (s : String)
  | drive (s : String)
deriving DecidableEq

/-- Test one denylist entry against a path (regexes carry the i flag, so
both sides are case folded). -/
def testPat (p : Pat) (path : String) : Bool :=
  let lp := lowerStr path
  match p with
  | .pre s => jsStartsWith lp (lowerStr s)
  | .sub s => jsIncludes lp (lowerStr s)
  | .suf s => jsEndsWith lp (lowerStr s)
  | .drive s =>
    match lp.data with
    | c :: rest => c.isAlpha && jsStartsWith (String.mk rest) (lowerStr s)
    | [] => false

/-- blockedPatterns.linux. -/
def linuxPatterns : List Pat :=
  [.pre "/etc/", .pre "/root/", .pre "/boot/", .pre "/sys/", .pre "/proc/",
   .pre "/dev/", .pre "/var/log/", .pre "/usr/bin/", .pre "/usr/sbin/",
   .pre "/lib/", .pre "/lib64/", .pre "/sbin/", .pre "/bin/", .pre "/tmp/",
   .pre "/var/spool/", .pre "/var/cache/", .pre "/var/run/", .pre "/lost+found/"]

/-- blockedPatterns.windows. -/
def windowsPatterns : List Pat :=
  [.drive ":\\Windows\\", .drive ":\\Program Files\\", .drive ":\\ProgramData\\",
   .drive ":\\System Volume Information\\", .drive ":\\Recovery\\", .drive ":\\Boot\\",
   .drive ":\\$Recycle.Bin\\", .suf "hiberfil.sys", .suf "pagefile.sys", .suf "swapfile.sys"]

/-- blockedPatterns.macos. -/
def macosPatterns : List Pat :=
  [.pre "/System/", .pre "/Library/Application Support/", .pre "/Library/LaunchDaemons/",
   .pre "/Library/LaunchAgents/", .pre "/Library/Frameworks/", .pre "/private/",
   .pre "/usr/libexec/", .pre "/Applications/Utilities/"]

/-- blockedPatterns.universal. -/
def universalPatterns : List Pat :=
  [.sub ".ssh/", .sub ".gnupg/", .sub "id_rsa", .sub "id_ed25519",
   .suf ".key", .suf ".pem", .sub "shadow", .suf "passwd", .sub "sudoers"]

/-- getPatternsByPlatform. -/
def getPatternsByPlatform (platform : String) : List Pat :=
  universalPatterns ++
    (if platform = "win32" then windowsPatterns
     else if platform = "darwin" then macosPatterns ++ linuxPatterns
     else linuxPatterns)

/-- maxPathLength. -/
def maxPathLength : Nat := 4096

/-- Result of validatePath: either valid with the resolved path, or a
failure with message and code. -/
structure VResult where
  valid : Bool
  error : Option String
  code : Option String
  normalizedPath : Option String
deriving DecidableEq

/-- validatePath.  path.normalize / path.resolve are Node built-ins and are
passed as parameters, as are the lstat/realpath filesystem probes for the
symlink step (isSymlink is false when the file does not exist, matching the
caught-exception branch).  fuel bounds the symlink recursion; real chains
resolve in one hop because realpath returns a fully resolved path. -/
def validatePath (normalize resolve : String → String) (isSymlink : String → Bool)
    (realpath : String → String) (platform : String) :
    Nat → String → VResult
  | fuel, filePath =>
    if filePath.length = 0 then
      ⟨false, some "Invalid path: must be a non-empty string", some "INVALID_INPUT", none⟩
    else if maxPathLength < filePath.length then
      ⟨false, some "Path too long: exceeds 4096 characters", some "PATH_TOO_LONG", none⟩
    else
      let normalizedPath := normalize filePath
      let absolutePath := resolve normalizedPath
      if jsIncludes normalizedPath ".." || jsIncludes filePath ".." then
        ⟨false, some "Security violation: Directory traversal detected",
          some "TRAVERSAL_DETECTED", none⟩
      else if (getPatternsByPlatform platform).any (fun p => testPat p absolutePath) then
        ⟨false, some "Access denied: Cannot access system directory", some "BLOCKED_PATH", none⟩
      else if isSymlink absolutePath then
        match fuel with
        | 0 => ⟨true, none, none, some absolutePath⟩
        | fuel' + 1 =>
          let realPathValidation :=
            validatePath normalize resolve isSymlink realpath platform fuel' (realpath absolutePath)
          if realPathValidation.valid then ⟨true, none, none, some absolutePath⟩
          else realPathValidation
      else ⟨true, none, none, some absolutePath⟩

end PathSec

/-! ## File Walker (SmartSearchEngine.getAllFiles, src/index.js) -/

namespace Walker

/-- A directory tree: the filesystem as seen by fs.readdir.  Symbolic links
and special files are ignored by the walker and are not modelled. -/
inductive FsNode where
  | file (name : String)
  | dir (name : String) (children : List FsNode)

/-- Lower-cased Node path.extname of a file name: the suffix from the last
dot, empty when there is no dot or the only dot starts the name. -/
def extnameLower (name : String) : String :=
  match go (lowerChars name.data).reverse [] with
  | none => ""
  | some tail => String.mk tail
where
  /-- Scan the reversed name up to its first dot; none when there is no dot
  or the dot is the first character of the name. -/
  go : List Char → List Char → Option (List Char)
    | [], _ => none
    | '.' :: rest, acc => if rest.isEmpty then none else some ('.' :: acc)
    | c :: rest, acc => go rest (c :: acc)

/-- One FileEntry produced by the walk.  The path relative to the walk root
is kept as its list of segments (the last segment is the file name);
path.join and path.relative manipulate exactly these segments. -/
structure WalkEntry where
  segs : List String
  name : String
  extension : String
deriving DecidableEq

/-- The fixed default skip-set of getAllFiles. -/
def defaultSkipDirs : List String :=
  ["node_modules", ".git", ".svn", ".hg", "target", "build", "dist",
   "bin", "obj", ".vscode", ".idea", "__pycache__", ".gradle",
   "vendor", "coverage", ".nyc_output", "logs", ".next", "out",
   "tmp", "temp", ".cache", ".pytest_cache", ".mypy_cache"]

/-- scanDirectory: the recursive closure inside getAllFiles, walking the
children of the directory currently at currentDepth.  Directory read
errors only remove subtrees and are modelled by the tree itself. -/
def scanDirectory (maxDepth : Nat) (skipSet : List String) (extensions : List String) :
    Nat → List FsNode → List WalkEntry
  | _, [] => []
  | currentDepth, FsNode.file name :: rest =>
    let ext := extnameLower name
    (if extensions.isEmpty || extensions.contains ext then
       [{ segs := [name], name := name, extension := ext }]
     else []) ++ scanDirectory maxDepth skipSet extensions currentDepth rest
  | currentDepth, FsNode.dir name children :: rest =>
    (if (jsStartsWith name "." && name ≠ ".") || skipSet.contains (lowerStr name) then []
     else if maxDepth ≤ currentDepth + 1 then []
     else (scanDirectory maxDepth skipSet extensions (currentDepth + 1) children).map
            (fun e => { e with segs := name :: e.segs })) ++
    scanDirectory maxDepth skipSet extensions currentDepth rest

/-- getAllFiles on a root directory whose children are rootNodes.  The
entry depth check of scanDirectory for the root itself is the maxDepth ≤ 0
test; for subdirectories it is performed before recursing.  The path
validation step throws on an invalid root (Except.error). -/
def getAllFiles (rootValid : Bool) (maxDepth : Nat) (skipDirs extensions : List String)
    (rootNodes : List FsNode) : Except String (List WalkEntry) :=
  if !rootValid then Except.error "Security violation"
  else if maxDepth ≤ 0 then Except.ok []
  else Except.ok (scanDirectory maxDepth (defaultSkipDirs ++ skipDirs) extensions 0 rootNodes)

/-- Directory levels of an entry below the walk root: a file directly in
the root is 0 levels deep. -/
def dirLevels (e : WalkEntry) : Nat := e.segs.length - 1

end Walker

/-! ## Sync walker allow-list gate (RobustSearchEngine.getAllFilesSync,
src/search/searchEngine.js) -/

namespace SyncWalker

/-- A file entry of the sync walker. -/
structure SyncEntry where
  path : String
  relativePath : String
  name : String
  extension : String
deriving DecidableEq

/-- The sync walker's skip-set (the default set plus four extra names). -/
def skipDirsSync : List String :=
  Walker.defaultSkipDirs ++ ["bower_components", "jspm_packages", ".meteor", ".sass-cache"]

/-- getAllFilesSync.  path.resolve is a parameter; the directory contents
are the tree nodes, addressed by the textual dirPath built with
path.join (modelled as slash concatenation).  The allowed-path gate is the
first check of every (also recursive) invocation: when the resolved target
does not start with some resolved allowed path the walk of that directory
yields no entries. -/
def getAllFilesSync (resolve : String → String) (allowedPaths : List String) (maxDepth : Nat) :
    Nat → String → List Walker.FsNode → List SyncEntry
  | currentDepth, dirPath, nodes =>
    let isAllowed := allowedPaths.any fun allowedPath =>
      jsStartsWith (resolve dirPath) (resolve allowedPath)
    if !isAllowed then []
    else if maxDepth ≤ currentDepth then []
    else
      -- the per-directory gate and depth check depend only on (dirPath,
      -- currentDepth), so re-evaluating them on each sibling step below is
      -- the same function as checking them once per directory
      match nodes with
      | [] => []
      | Walker.FsNode.file name :: rest =>
        { path := dirPath ++ "/" ++ name, relativePath := name, name := name,
          extension := Walker.extnameLower name } ::
        getAllFilesSync resolve allowedPaths maxDepth currentDepth dirPath rest
      | Walker.FsNode.dir name children :: rest =>
        (if (jsStartsWith name "." && name ≠ ".") || skipDirsSync.contains (lowerStr name) then []
         else getAllFilesSync resolve allowedPaths maxDepth (currentDepth + 1)
                (dirPath ++ "/" ++ name) children) ++
        getAllFilesSync resolve allowedPaths maxDepth currentDepth dirPath rest

end SyncWalker

/-! ## Pattern Search Engine (SmartSearchEngine, src/index.js) -/

namespace Search

/-- A FileEntry of the smart search engine (produced by getAllFiles with
joined path strings; fileType is the tag computed by getFileType). -/
structure FileEntry where
  path : String
  name : String
  extension : String
  relativePath : String
  directory : String
  fileType : String
deriving DecidableEq

/-- One in-file match as produced by findMatches. -/
structure RawMatch where
  line : Nat
  column : Nat
  matchText : String
  context : String
  matchType : String
  relevanceScore : Nat
  patternUsed : String
deriving DecidableEq

/-- One cross-file result: a RawMatch spread together with the file
metadata attached in smartSearch's searchFunction. -/
structure ResultRec where
  line : Nat
  column : Nat
  matchText : String
  context : String
  matchType : String
  relevanceScore : Nat
  patternUsed : String
  file : String
  fullPath : String
  fileName : String
  fileType : String
  extension : String
deriving DecidableEq

/-- One step of deduplicateAndScore's uniqueByLine map: Map.set keeps the
insertion position of the key and replaces the value only when the stored
score is strictly smaller. -/
def dedupInsert (acc : List RawMatch) (r : RawMatch) : List RawMatch :=
  if acc.any (fun x => x.line = r.line) then
    acc.map (fun x => if x.line = r.line ∧ x.relevanceScore < r.relevanceScore then r else x)
  else acc ++ [r]

/-- The comparator of deduplicateAndScore: relevance score descending,
then line number ascending. -/
def lineLe (a b : RawMatch) : Prop :=
  b.relevanceScore < a.relevanceScore ∨
    (a.relevanceScore = b.relevanceScore ∧ a.line ≤ b.line)

instance : DecidableRel lineLe := fun a b => by unfold lineLe; exact inferInstance

/-- deduplicateAndScore: keep per line the best-scoring match, sorted by
(score desc, line asc).  Array.prototype.sort with a consistent comparator
is modelled by insertion sort over the comparator's order. -/
def deduplicateAndScore (results : List RawMatch) : List RawMatch :=
  List.insertionSort lineLe (results.foldl dedupInsert [])

/-- smartSearchInFile after the per-pattern matching loop: raws stands for
the matches accumulated over the prioritized patterns (the regex engine on
the file content, an external oracle of this embedding); the function
deduplicates, sorts and truncates them to maxMatches. -/
def smartSearchInFile (raws : List RawMatch) (maxMatches : Nat) : List RawMatch :=
  (deduplicateAndScore raws).take maxMatches

/-- Attaching the file metadata to a per-file match (the result spread in
smartSearch's searchFunction). -/
def attachFile (f : FileEntry) (r : RawMatch) : ResultRec :=
  { line := r.line, column := r.column, matchText := r.matchText, context := r.context,
    matchType := r.matchType, relevanceScore := r.relevanceScore,
    patternUsed := r.patternUsed, file := f.relativePath, fullPath := f.path,
    fileName := f.name, fileType := f.fileType, extension := f.extension }

/-- smartSearch's searchFunction: per-file search with maxMatches 3, then
file metadata attachment; rawOf is the per-file regex-matching oracle. -/
def searchFunction (rawOf : FileEntry → List RawMatch) (f : FileEntry) : List ResultRec :=
  (smartSearchInFile (rawOf f) 3).map (attachFile f)

/-- The batch-splitting loop, with explicit fuel. -/
def chunkListGo (b : Nat) : Nat → List α → List (List α)
  | 0, _ => []
  | _ + 1, [] => []
  | fuel + 1, c :: rest =>
    (c :: rest).take (max b 1) :: chunkListGo b fuel ((c :: rest).drop (max b 1))

/-- Split a list into batches of size b (the slice loop of
processFilesInBatches).  Every step consumes at least one element, so the
list length bounds the number of steps (the fuel); the engine's batchSize
is positive, and the max with 1 only makes the degenerate b = 0 case
terminate. -/
def chunkList (b : Nat) (l : List α) : List (List α) := chunkListGo b l.length l

/-- The batch loop of processFilesInBatches: run each batch, append its
flattened results, and stop issuing batches once the accumulated count has
reached engineMax (this.maxResults, the engine-level configured ceiling). -/
def runBatches (engineMax : Nat) (g : FileEntry → List ResultRec) (acc : List ResultRec) :
    List (List FileEntry) → List ResultRec
  | [] => acc
  | b :: bs =>
    let acc2 := acc ++ (b.map g).flatten
    if engineMax ≤ acc2.length then acc2
    else runBatches engineMax g acc2 bs

/-- processFilesInBatches (per-file errors are caught and yield [] inside
g, so the promise layer is invisible here). -/
def processFilesInBatches (batchSize engineMax : Nat) (g : FileEntry → List ResultRec)
    (files : List FileEntry) : List ResultRec :=
  runBatches engineMax g [] (chunkList batchSize files)

/-- Lexicographic character-list comparison (a.localeCompare(b) <= 0 for
the ASCII strings handled here). -/
def charListLe : List Char → List Char → Bool
  | [], _ => true
  | _ :: _, [] => false
  | a :: as, b :: bs => if a < b then true else if b < a then false else charListLe as bs

/-- Lexicographic string comparison. -/
def strLe (a b : String) : Bool := charListLe a.data b.data

/-- The final comparator of smartSearch: relevance score descending, then
file path ascending (a.file.localeCompare(b.file) modelled by the
lexicographic string order). -/
def resLe (a b : ResultRec) : Prop :=
  b.relevanceScore < a.relevanceScore ∨
    (a.relevanceScore = b.relevanceScore ∧ strLe a.file b.file = true)

instance : DecidableRel resLe := fun a b => by unfold resLe; exact inferInstance

/-- smartSearch from the file universe on: take at most maxFiles files,
process them in batches, sort by (score desc, path asc) and truncate to the
caller-requested maxResults (the source slices twice with the same bound;
one take is the same list). -/
def smartSearch (batchSize engineMax maxFiles maxResults : Nat)
    (rawOf : FileEntry → List RawMatch) (files : List FileEntry) : List ResultRec :=
  let filesToProcess := files.take maxFiles
  let allResults := processFilesInBatches batchSize engineMax (searchFunction rawOf) filesToProcess
  (List.insertionSort resLe allResults).take maxResults

/-- Result keys that must not repeat: the (file, line) pair. -/
def keyNe (a b : ResultRec) : Prop := ¬(a.file = b.file ∧ a.line = b.line)

end Search

namespace Search

/-- JS String.prototype.split('\n') on a character list: always at least
one (possibly empty) piece. -/
def splitNl : List Char → List (List Char)
  | [] => [[]]
  | c :: rest =>
    match splitNl rest with
    | [] => [[]]
    | h :: t => if c = '\n' then [] :: h :: t else (c :: h) :: t

/-- beforeMatch.split('\n').length: the 1-based line number of the
character at index i of content. -/
def lineOfIndex (content : List Char) (i : Nat) : Nat :=
  ((content.take i).countP (· = '\n')) + 1

/-- beforeMatch.lastIndexOf('\n'): position of the last newline strictly
before index i (none models the -1 result). -/
def lastNlBefore (content : List Char) (i : Nat) : Option Nat :=
  (((content.take i).enum.filter (fun p => p.2 = '\n')).map (·.1)).getLast?

/-- matchIndex - beforeMatch.lastIndexOf('\n'). -/
def columnOf (content : List Char) (i : Nat) : Nat :=
  match lastNlBefore content i with
  | none => i + 1
  | some p => i - p

/-- The ±contextLines window around a match:
lines.slice(max 0 (line-ctx-1), min (lines.length-1) (line+ctx-1) + 1)
joined with newlines (JS slice clamps an end smaller than the start). -/
def buildContext (lines : List (List Char)) (lineNumber contextLines : Nat) : List Char :=
  let startLine : Int := max 0 ((lineNumber : Int) - contextLines - 1)
  let endLine : Int := min ((lines.length : Int) - 1) ((lineNumber : Int) + contextLines - 1)
  let s := startLine.toNat
  let piece := ((lines.drop s).take ((endLine + 1 - s).toNat)).intersperse ['\n']
  piece.flatten

/-- One result record of findMatches at match index i with matched text t. -/
def mkMatch (content : List Char) (lines : List (List Char)) (ptype : String) (weight : Nat)
    (pattern : String) (contextLines : Nat) (i : Nat) (t : String) : RawMatch :=
  { line := lineOfIndex content i, column := columnOf content i, matchText := t,
    context := String.mk (buildContext lines (lineOfIndex content i) contextLines),
    matchType := ptype, relevanceScore := weight, patternUsed := pattern }

/-- The indexOf loop of the literal fallback: all occurrence start indices,
advancing by one after each hit (overlapping occurrences included).  fuel
bounds the scan; text.length + 1 steps always suffice since every found
index is at least the requested start. -/
def literalScan (text pat : List Char) : Nat → Nat → List Nat
  | 0, _ => []
  | fuel + 1, start =>
    match indexOfFrom text pat start with
    | none => []
    | some i => i :: literalScan text pat fuel (i + 1)

/-- A pattern tried by findMatches: regex text, strategy name, weight. -/
structure PatternInfo where
  pattern : String
  ptype : String
  weight : Nat
deriving DecidableEq

/-- The catch branch of findMatches: the literal indexOf loop over the
same content, case folded unless caseSensitive, with matchText cut from
the original content (content.substr). -/
def literalFallback (content : String) (pinfo : PatternInfo) (caseSensitive : Bool)
    (contextLines : Nat) : List RawMatch :=
  let searchText := if caseSensitive then content.data else lowerChars content.data
  let searchPattern := if caseSensitive then pinfo.pattern.data
    else lowerChars pinfo.pattern.data
  (literalScan searchText searchPattern (searchText.length + 1) 0).map fun i =>
    mkMatch content.data (splitNl content.data) pinfo.ptype pinfo.weight pinfo.pattern
      contextLines i (String.mk ((content.data.drop i).take searchPattern.length))

/-- findMatches.  The regex path is the oracle regexAttempt: some ms gives
the (index, matched text) pairs of content.matchAll, none models the regex
constructor or executor throwing, upon which the literal substring
fallback runs over the same content. -/
def findMatches (regexAttempt : Option (List (Nat × String))) (content : String)
    (pinfo : PatternInfo) (caseSensitive : Bool) (contextLines : Nat) : List RawMatch :=
  match regexAttempt with
  | some ms =>
    ms.map fun p => mkMatch content.data (splitNl content.data) pinfo.ptype pinfo.weight
      pinfo.pattern contextLines p.1 p.2
  | none => literalFallback content pinfo caseSensitive contextLines

/-- Case folding used by a search: identity when caseSensitive. -/
def foldCase (caseSensitive : Bool) (s : String) : String :=
  if caseSensitive then s else lowerStr s

end Search

/-! ## Log normalization (SmartSearchEngine.normalizeLogText, src/index.js)

Every replacement step of the moderate pipeline is one fixed regular
expression; each is implemented below as a deterministic scanner that
reproduces that pattern's matching (greedy runs, the word-boundary checks,
and the one backtracking point of the email domain).  String.replace
matches left to right on the unchanged input, so a single scan that
splices replacements is the faithful model. -/

namespace Norm

/-- Character class \d. -/
def isDigitC (c : Char) : Bool := '0' ≤ c && c ≤ '9'

/-- Lower-case ASCII letter. -/
def isLowerC (c : Char) : Bool := 'a' ≤ c && c ≤ 'z'

/-- Upper-case ASCII letter. -/
def isUpperC (c : Char) : Bool := 'A' ≤ c && c ≤ 'Z'

/-- ASCII letter. -/
def isAlphaC (c : Char) : Bool := isLowerC c || isUpperC c

/-- Character class [0-9a-fA-F]. -/
def isHexC (c : Char) : Bool :=
  isDigitC c || ('a' ≤ c && c ≤ 'f') || ('A' ≤ c && c ≤ 'F')

/-- Character class \w. -/
def isWordC (c : Char) : Bool := isAlphaC c || isDigitC c || c = '_'

/-- Consume exactly n characters satisfying p ({n} counts). -/
def chompN (p : Char → Bool) : Nat → List Char → Option (List Char)
  | 0, l => some l
  | _ + 1, [] => none
  | n + 1, c :: l => if p c then chompN p n l else none

/-- Consume one literal character. -/
def chompLit (c : Char) : List Char → Option (List Char)
  | [] => none
  | c2 :: l => if c2 = c then some l else none

/-- Length of the greedy run of p at the head. -/
def runLen (p : Char → Bool) (l : List Char) : Nat := (l.takeWhile p).length

/-- \b before the match: position 0 or a non-word character before it. -/
def boundaryBefore (prev : Option Char) : Bool :=
  match prev with
  | none => true
  | some c => !isWordC c

/-- \b after the match: end of input or a non-word character next. -/
def boundaryAt (l : List Char) : Bool :=
  match l with
  | [] => true
  | c :: _ => !isWordC c

/-- UUID pattern [0-9a-fA-F]{8}(-[0-9a-fA-F]{4}){3}-[0-9a-fA-F]{12}. -/
def uuidScan (l : List Char) : Option Nat := do
  let a1 ← chompN isHexC 8 l
  let a2 ← chompLit '-' a1
  let a3 ← chompN isHexC 4 a2
  let a4 ← chompLit '-' a3
  let a5 ← chompN isHexC 4 a4
  let a6 ← chompLit '-' a5
  let a7 ← chompN isHexC 4 a6
  let a8 ← chompLit '-' a7
  let a9 ← chompN isHexC 12 a8
  pure (l.length - a9.length)

/-- Hex literal pattern 0x[0-9a-fA-F]+ (case-sensitive 0x). -/
def hexScan : List Char → Option Nat
  | '0' :: 'x' :: rest =>
    let r := runLen isHexC rest
    if 1 ≤ r then some (2 + r) else none
  | _ => none

/-- One \d{1,3}\. group of the IPv4 pattern: a full digit run of length
1-3 followed by the dot (a longer run cannot backtrack into a match). -/
def ipSeg (l : List Char) : Option (List Char) :=
  let r := runLen isDigitC l
  if 1 ≤ r && r ≤ 3 then chompLit '.' (l.drop r) else none

/-- IPv4 pattern \b(?:\d{1,3}\.){3}\d{1,3}\b. -/
def ipScan (prev : Option Char) (l : List Char) : Option Nat :=
  if !boundaryBefore prev then none
  else do
    let a1 ← ipSeg l
    let a2 ← ipSeg a1
    let a3 ← ipSeg a2
    let r := runLen isDigitC a3
    if 1 ≤ r && r ≤ 3 && boundaryAt (a3.drop r) then
      pure (l.length - a3.length + r)
    else none

/-- Email local-part class [a-zA-Z0-9._%+-]. -/
def isLocalC (c : Char) : Bool :=
  isAlphaC c || isDigitC c || c = '.' || c = '_' || c = '%' || c = '+' || c = '-'

/-- Email domain class [a-zA-Z0-9.-]. -/
def isDomC (c : Char) : Bool := isAlphaC c || isDigitC c || c = '.' || c = '-'

/-- Backtracking of the domain part [a-zA-Z0-9.-]+\.[a-zA-Z]{2,}: the
greedy domain run gives up characters from the right until the next
character is the literal dot followed by at least two letters.  The
argument is the candidate length of the [a-zA-Z0-9.-]+ part, tried from
the largest value downwards. -/
def emailTailTry (afterAt : List Char) : Nat → Option Nat
  | 0 => none
  | k + 1 =>
    match afterAt.drop (k + 1) with
    | '.' :: tail =>
      let a := runLen isAlphaC tail
      if 2 ≤ a then some ((k + 1) + 1 + a) else emailTailTry afterAt k
    | _ => emailTailTry afterAt k

/-- Email pattern [a-zA-Z0-9._%+-]+@[a-zA-Z0-9.-]+\.[a-zA-Z]{2,}. -/
def emailScan (l : List Char) : Option Nat :=
  let r := runLen isLocalC l
  if r = 0 then none
  else
    match l.drop r with
    | '@' :: tail =>
      let m := runLen isDomC tail
      (emailTailTry tail (m - 1)).map (fun t => r + 1 + t)
    | _ => none

/-- Unix path class [\w.-]. -/
def isFpC (c : Char) : Bool := isWordC c || c = '.' || c = '-'

/-- One \/[\w.-]+ group of the unix filepath pattern. -/
def fpSegScan : List Char → Option Nat
  | '/' :: rest =>
    let r := runLen isFpC rest
    if 1 ≤ r then some (1 + r) else none
  | _ => none

/-- Greedy repetition of a segment scanner (the (...)+ loops of the two
filepath patterns; the trailing optional (?:\.\w+)? group always matches
empty because the dot belongs to the preceding character class).  fuel is
bounded by the input length: every segment consumes at least one char. -/
def segLoop (seg : List Char → Option Nat) : Nat → List Char → Nat → Option Nat
  | 0, _, acc => if acc = 0 then none else some acc
  | fuel + 1, l, acc =>
    match seg l with
    | none => if acc = 0 then none else some acc
    | some n => segLoop seg fuel (l.drop n) (acc + n)

/-- Unix filepath pattern (?:\/[\w.-]+)+(?:\.\w+)?. -/
def fpScan (l : List Char) : Option Nat := segLoop fpSegScan (l.length + 1) l 0

/-- Windows path class [\w\\.-]. -/
def isWinC (c : Char) : Bool := isWordC c || c = '\\' || c = '.' || c = '-'

/-- One [A-Z]:\\[\w\\.-]+ group of the windows filepath pattern. -/
def winSegScan : List Char → Option Nat
  | c :: ':' :: '\\' :: rest =>
    if isUpperC c then
      let r := runLen isWinC rest
      if 1 ≤ r then some (3 + r) else none
    else none
  | _ => none

/-- Windows filepath pattern (?:[A-Z]:\\[\w\\.-]+)+(?:\.\w+)?. -/
def winScan (l : List Char) : Option Nat := segLoop winSegScan (l.length + 1) l 0

/-- ISO timestamp pattern
\d{4}-\d{2}-\d{2}[T ]\d{2}:\d{2}:\d{2}(?:\.\d+)?(?:Z|[+-]\d{2}:\d{2})?. -/
def ts1Scan (l : List Char) : Option Nat := do
  let a1 ← chompN isDigitC 4 l
  let a2 ← chompLit '-' a1
  let a3 ← chompN isDigitC 2 a2
  let a4 ← chompLit '-' a3
  let a5 ← chompN isDigitC 2 a4
  let a6 ← match a5 with
           | 'T' :: rest => some rest
           | ' ' :: rest => some rest
           | _ => none
  let a7 ← chompN isDigitC 2 a6
  let a8 ← chompLit ':' a7
  let a9 ← chompN isDigitC 2 a8
  let b1 ← chompLit ':' a9
  let b2 ← chompN isDigitC 2 b1
  let b3 := match b2 with
    | '.' :: rest =>
      let r := runLen isDigitC rest
      if 1 ≤ r then rest.drop r else b2
    | _ => b2
  let b4 := match b3 with
    | 'Z' :: rest => rest
    | c :: rest =>
      if c = '+' || c = '-' then
        match (do
          let x ← chompN isDigitC 2 rest
          let y ← chompLit ':' x
          chompN isDigitC 2 y) with
        | some r => r
        | none => b3
      else b3
    | [] => b3
  pure (l.length - b4.length)

/-- Slash timestamp pattern \d{2}\/\d{2}\/\d{4}\s+\d{2}:\d{2}:\d{2}. -/
def ts2Scan (l : List Char) : Option Nat := do
  let a1 ← chompN isDigitC 2 l
  let a2 ← chompLit '/' a1
  let a3 ← chompN isDigitC 2 a2
  let a4 ← chompLit '/' a3
  let a5 ← chompN isDigitC 4 a4
  let w := runLen isSpaceC a5
  if w = 0 then none
  else do
    let a6 ← chompN isDigitC 2 (a5.drop w)
    let a7 ← chompLit ':' a6
    let a8 ← chompN isDigitC 2 a7
    let a9 ← chompLit ':' a8
    let b1 ← chompN isDigitC 2 a9
    pure (l.length - b1.length)

/-- Scan after an opening quote q for the body (?:[^q\\]|\\.)* and the
closing quote; the regex dot does not match a line terminator. -/
def quoteScan (q : Char) : Nat → List Char → Option Nat
  | 0, _ => none
  | _ + 1, [] => none
  | fuel + 1, c :: rest =>
    if c = q then some 1
    else if c = '\\' then
      match rest with
      | [] => none
      | c2 :: rest2 =>
        if c2 = '\n' || c2 = '\r' then none
        else (quoteScan q fuel rest2).map (· + 2)
    else (quoteScan q fuel rest).map (· + 1)

/-- Quoted string pattern q(?:[^q\\]|\\.)*q for quote character q. -/
def strScan (q : Char) (l : List Char) : Option Nat :=
  match l with
  | c :: rest => if c = q then (quoteScan q (rest.length + 1) rest).map (· + 1) else none
  | [] => none

/-- printf placeholder pattern %[sdifoxX]. -/
def pctScan : List Char → Option Nat
  | '%' :: c :: _ => if c ∈ ['s', 'd', 'i', 'f', 'o', 'x', 'X'] then some 2 else none
  | _ => none

/-- Template placeholder pattern \$\x7b\w+\x7d. -/
def dollarBraceScan : List Char → Option Nat
  | '$' :: '\x7b' :: rest =>
    let r := runLen isWordC rest
    if 1 ≤ r then
      match rest.drop r with
      | '\x7d' :: _ => some (3 + r)
      | _ => none
    else none
  | _ => none

/-- Brace placeholder pattern \x7bC+\x7d for a character class C (the
numbered \x7b\d+\x7d and CONSTANT_NAME \x7b[A-Z_]+\x7d placeholders). -/
def braceRunScan (p : Char → Bool) : List Char → Option Nat
  | '\x7b' :: rest =>
    let r := runLen p rest
    if 1 ≤ r then
      match rest.drop r with
      | '\x7d' :: _ => some (2 + r)
      | _ => none
    else none
  | _ => none

/-- Float pattern \b\d+\.\d+\b. -/
def floatScan (prev : Option Char) (l : List Char) : Option Nat :=
  if !boundaryBefore prev then none
  else
    let r1 := runLen isDigitC l
    if r1 = 0 then none
    else
      match l.drop r1 with
      | '.' :: rest =>
        let r2 := runLen isDigitC rest
        if 1 ≤ r2 && boundaryAt (rest.drop r2) then some (r1 + 1 + r2) else none
      | _ => none

/-- Long number pattern \b\d{4,}\b. -/
def num4Scan (prev : Option Char) (l : List Char) : Option Nat :=
  if !boundaryBefore prev then none
  else
    let r := runLen isDigitC l
    if 4 ≤ r && boundaryAt (l.drop r) then some r else none

/-- The status codes preserved verbatim by the short-number callback. -/
def keepCodes : List String :=
  ["200", "404", "500", "403", "401", "503", "400", "0", "1", "-1"]

/-- A replacement matcher: given the previous original character and the
current suffix, the consumed length and the replacement text. -/
abbrev Matcher := Option Char → List Char → Option (Nat × List Char)

/-- Short number pattern \b\d{1,3}\b with the keep-list callback. -/
def num13M : Matcher := fun prev l =>
  if !boundaryBefore prev then none
  else
    let r := runLen isDigitC l
    if 1 ≤ r && r ≤ 3 && boundaryAt (l.drop r) then
      let txt := l.take r
      some (r, if keepCodes.contains (String.mk txt) then txt else "NUM".data)
    else none

/-- Global regex replacement: scan the original text left to right,
splicing the replacement and resuming after each match (String.replace
with the g flag; matching always sees the original string).  fuel is
bounded by the input length: every step consumes at least one char. -/
def replaceScan (m : Matcher) : Nat → Option Char → List Char → List Char
  | 0, _, l => l
  | _ + 1, _, [] => []
  | fuel + 1, prev, c :: rest =>
    match m prev (c :: rest) with
    | some (n, repl) =>
      if n = 0 then c :: replaceScan m fuel (some c) rest
      else repl ++ replaceScan m fuel (some ((c :: rest).getD (n - 1) c)) (rest.drop (n - 1))
    | none => c :: replaceScan m fuel (some c) rest

/-- Run one replacement pass over a whole text. -/
def runReplace (m : Matcher) (l : List Char) : List Char :=
  replaceScan m (l.length + 1) none l

/-- Lift a boundary-free scanner and a fixed replacement to a matcher. -/
def liftScan (scan : List Char → Option Nat) (repl : String) : Matcher :=
  fun _ l => (scan l).map (fun n => (n, repl.data))

/-- Lift a boundary-aware scanner and a fixed replacement to a matcher. -/
def liftScanB (scan : Option Char → List Char → Option Nat) (repl : String) : Matcher :=
  fun prev l => (scan prev l).map (fun n => (n, repl.data))

/-- camelCase boundary insertion ([a-z])([A-Z]) → $1 $2: each matched pair
is consumed whole and scanning resumes after it. -/
def camelSpaceGo : Nat → List Char → List Char
  | 0, l => l
  | _ + 1, [] => []
  | _ + 1, [a] => [a]
  | fuel + 1, a :: b :: rest =>
    if isLowerC a && isUpperC b then a :: ' ' :: b :: camelSpaceGo fuel rest
    else a :: camelSpaceGo fuel (b :: rest)

/-- camelCase boundary insertion with explicit fuel (every step consumes
at least one character, so the input length bounds the steps). -/
def camelSpace (l : List Char) : List Char := camelSpaceGo l.length l

/-- Whitespace collapsing \s+ → ' ' as a single scan. -/
def collapseWsGo : Bool → List Char → List Char
  | _, [] => []
  | prevSpace, c :: rest =>
    if isSpaceC c then
      if prevSpace then collapseWsGo true rest else ' ' :: collapseWsGo true rest
    else c :: collapseWsGo false rest

/-- replace(\s+, ' ') followed by trim(). -/
def collapseAndTrim (l : List Char) : List Char := trimChars (collapseWsGo false l)

/-- The moderate pipeline: the replacement passes in source order, then
camelCase spacing, ASCII case folding and whitespace cleanup. -/
def normalizeModerate (l : List Char) : List Char :=
  let t := runReplace (liftScan uuidScan "UUID") l
  let t := runReplace (liftScan hexScan "HEX") t
  let t := runReplace (liftScanB ipScan "IP") t
  let t := runReplace (liftScan emailScan "EMAIL") t
  let t := runReplace (liftScan fpScan "FILEPATH") t
  let t := runReplace (liftScan winScan "FILEPATH") t
  let t := runReplace (liftScan ts1Scan "TIMESTAMP") t
  let t := runReplace (liftScan ts2Scan "TIMESTAMP") t
  let t := runReplace (liftScan (strScan '"') "STR") t
  let t := runReplace (liftScan (strScan '\'') "STR") t
  let t := runReplace (liftScan pctScan "PLACEHOLDER") t
  let t := runReplace (liftScan dollarBraceScan "PLACEHOLDER") t
  let t := runReplace (liftScan (braceRunScan isDigitC) "PLACEHOLDER") t
  let t := runReplace (liftScan (braceRunScan (fun c => isUpperC c || c = '_')) "PLACEHOLDER") t
  let t := runReplace (liftScanB floatScan "NUM") t
  let t := runReplace (liftScanB num4Scan "NUM") t
  let t := runReplace num13M t
  let t := camelSpace t
  let t := lowerChars t
  collapseAndTrim t

/-- The punctuation class stripped by the heavy level (every ASCII
punctuation character of the source's bracket expression; dot, braces and
underscore are not in it). -/
def heavyPunct (c : Char) : Bool :=
  c ∈ ['!', '"', '#', '$', '%', '&', '\'', '(', ')', '*', '+', ',', '-', '/',
       ':', ';', '<', '=', '>', '?', '@', '[', '\\', ']', '^', Char.ofNat 96, '|', '~']

/-- normalizeLogText: light collapses whitespace, moderate runs the
replacement pipeline, heavy strips punctuation from the moderate result of
the original log; any other level returns the log unchanged. -/
def normalizeLogText (log : String) (level : String) : String :=
  if level = "light" then String.mk (collapseAndTrim log.data)
  else if level = "moderate" then String.mk (normalizeModerate log.data)
  else if level = "heavy" then
    let t := normalizeModerate log.data
    String.mk (collapseAndTrim (t.map (fun c => if heavyPunct c then ' ' else c)))
  else log

end Norm

/-! ## Log Tracer (SmartSearchEngine.traceErrorLogToSource, src/index.js) -/

namespace Trace

/-- One result handled by the tracer: the fields of a smartSearch result
that the tracer reads and stamps. -/
structure TraceResult where
  file : String
  line : Nat
  context : String
  searchContext : String
  relevanceScore : Nat
deriving DecidableEq

/-- calculateRelevance: exact-substring, language, error-file and
strategy bonuses. -/
def calculateRelevance (query : String) (result : TraceResult) (originalLog : String) : Nat :=
  (if result.context ≠ "" && jsIncludes (lowerStr result.context) (lowerStr query)
   then 10 else 0) +
  (if jsIncludes (lowerStr originalLog) "java" && jsEndsWith result.file ".java"
   then 5 else 0) +
  (if jsIncludes (lowerStr originalLog) "javascript" && jsEndsWith result.file ".js"
   then 5 else 0) +
  (if jsIncludes (lowerStr originalLog) "python" && jsEndsWith result.file ".py"
   then 5 else 0) +
  (if jsIncludes (lowerStr result.file) "error" || jsIncludes (lowerStr result.file) "exception"
   then 3 else 0) +
  (if result.searchContext = "key_phrase" then 8 else 0) +
  (if result.searchContext = "light_normalized" then 5 else 0) +
  (if result.searchContext = "error_type" then 4 else 0)

/-- The tracer's running state: queries already searched and the results
accumulated so far. -/
structure TState where
  searched : List String
  results : List TraceResult
deriving DecidableEq

/-- trySearch: skip duplicate or too-short queries, otherwise run the
delegated smartSearch (the oracle, called with maxResults 3) and stamp
each result with the strategy context and its relevance score. -/
def trySearch (oracle : String → List TraceResult) (log : String) (st : TState)
    (query context : String) : TState :=
  if st.searched.contains query || query.length < 3 then st
  else
    let st1 : TState := { st with searched := st.searched ++ [query] }
    let rs := oracle query
    if rs.isEmpty then st1
    else
      { st1 with
        results := st1.results ++ rs.map (fun r =>
          let r1 := { r with searchContext := context }
          { r1 with relevanceScore := calculateRelevance query r1 log }) }

/-- A strategy loop over a list of queries, breaking once five results
have accumulated (the break runs after each iteration). -/
def phraseLoop (oracle : String → List TraceResult) (log context : String) :
    TState → List String → TState
  | st, [] => st
  | st, p :: ps =>
    let st2 := trySearch oracle log st p context
    if 5 ≤ st2.results.length then st2 else phraseLoop oracle log context st2 ps

/-- The sub-phrase loop of the moderate strategy: only phrases longer than
10 characters are searched (trimmed), breaking at five results. -/
def partLoop (oracle : String → List TraceResult) (log : String) :
    TState → List String → TState
  | st, [] => st
  | st, p :: ps =>
    if 10 < p.length then
      let st2 := trySearch oracle log st (trimStr p) "phrase_part"
      if 5 ≤ st2.results.length then st2 else partLoop oracle log st2 ps
    else partLoop oracle log st ps

/-- Split on the delimiter class [:\-|] (JS String.split with a regex of
single-character alternatives). -/
def splitDelims (s : String) : List String :=
  (go s.data).map String.mk
where
  go : List Char → List (List Char)
    | [] => [[]]
    | c :: rest =>
      match go rest with
      | [] => [[]]
      | h :: t => if c = ':' || c = '-' || c = '|' then [] :: h :: t else (c :: h) :: t

/-- deduplicateResults: first occurrence of each (file, line) key is kept
in place; a later duplicate with a strictly higher relevance score updates
the kept entry's score and context. -/
def dedupeStep (unique : List TraceResult) (r : TraceResult) : List TraceResult :=
  if unique.any (fun x => x.file = r.file ∧ x.line = r.line) then
    unique.map (fun x =>
      if x.file = r.file ∧ x.line = r.line ∧ x.relevanceScore < r.relevanceScore then
        { x with relevanceScore := r.relevanceScore, searchContext := r.searchContext }
      else x)
  else unique ++ [r]

/-- deduplicateResults over a result list. -/
def deduplicateResults (results : List TraceResult) : List TraceResult :=
  results.foldl dedupeStep []

/-- The final sort comparator: relevance score descending. -/
def relLe (a b : TraceResult) : Prop := b.relevanceScore ≤ a.relevanceScore

instance : DecidableRel relLe := fun a b => by unfold relLe; exact inferInstance

/-- The sentinel returned when no strategy matched. -/
def sentinel : String := "No matching source found for the error log."

/-- formatTraceResult: the numbered report of the top results. -/
def formatTraceResult (results : List TraceResult) : String :=
  if results.isEmpty then sentinel
  else
    String.intercalate "\n\n" ((results.enum.map fun p =>
      let idx := p.1
      let r := p.2
      let contextLines := if r.context = "" then [] else (Search.splitNl r.context.data).map String.mk
      let relevantLine :=
        match contextLines.head? with
        | some l => if l ≠ "" then trimStr l else "No context available"
        | none => "No context available"
      let shortPath :=
        if 50 < r.file.length then "..." ++ String.mk (r.file.data.drop (r.file.length - 47))
        else r.file
      toString (idx + 1) ++ ". " ++ shortPath ++ ":" ++ toString r.line ++ "\n   " ++
        relevantLine ++
        (if r.relevanceScore ≠ 0 then " [relevance: " ++ toString r.relevanceScore ++ "]" else "")))

/-- Strategy 2 of the tracer: below three results, search the light
normalization of the log. -/
def lightPhase (oracle : String → List TraceResult) (log : String) (st : TState) : TState :=
  if st.results.length < 3 then
    trySearch oracle log st (Norm.normalizeLogText log "light") "light_normalized"
  else st

/-- Strategy 3 of the tracer: below three results, search the moderate
normalization and its long sub-phrases. -/
def moderatePhase (oracle : String → List TraceResult) (log : String) (st : TState) : TState :=
  if st.results.length < 3 then
    partLoop oracle log
      (trySearch oracle log st (Norm.normalizeLogText log "moderate") "moderate_normalized")
      (splitDelims (Norm.normalizeLogText log "moderate"))
  else st

/-- Strategy 4 of the tracer: below three results, search the extracted
error-type tokens. -/
def errorTypePhase (oracle : String → List TraceResult)
    (extractErrorTypes : String → List String) (log : String) (st : TState) : TState :=
  if st.results.length < 3 then phraseLoop oracle log "error_type" st (extractErrorTypes log)
  else st

/-- traceErrorLogToSource: key phrases, then light normalization, then
moderate normalization with its sub-phrases, then error-type tokens; on
zero accumulated results the sentinel, otherwise the formatted top three
after deduplication and score-descending sort.  The two key-phrase and
error-type extractors are regex harvesters over the log and enter as
parameters; the delegated smartSearch is the oracle. -/
def traceErrorLogToSource (oracle : String → List TraceResult)
    (extractKeyPhrases extractErrorTypes : String → List String) (log : String) : String :=
  let st4 := errorTypePhase oracle extractErrorTypes log
    (moderatePhase oracle log
      (lightPhase oracle log
        (phraseLoop oracle log "key_phrase" ⟨[], []⟩ (extractKeyPhrases log))))
  if st4.results.length = 0 then sentinel
  else
    formatTraceResult ((List.insertionSort relLe (deduplicateResults st4.results)).take 3)

end Trace

/-! ## SQL extraction scanners (CodeTraversalEngine /
EnhancedTraversalAnalyzer regexes) -/

namespace Sql

/-- Index of the first occurrence of character c. -/
def firstIdxOf (c : Char) : List Char → Option Nat
  | [] => none
  | x :: xs => if x = c then some 0 else (firstIdxOf c xs).map (· + 1)

/-- Leftmost match of a position scanner, returning the matched text. -/
def findFirstMatch (scan : List Char → Option Nat) : List Char → Option (List Char)
  | [] => none
  | c :: rest =>
    match scan (c :: rest) with
    | some n => some ((c :: rest).take n)
    | none => findFirstMatch scan rest

/-- Quoted-SELECT pattern q(SELECT[any]*?)q for quote q with the i flag:
an opening quote directly followed by SELECT, lazily extended to the next
quote. -/
def quoteSelScan (q : Char) (l : List Char) : Option Nat :=
  match l with
  | c :: rest =>
    if c = q && "select".data.isPrefixOf (lowerChars (rest.take 6)) then
      match firstIdxOf q (rest.drop 6) with
      | some j => some (1 + 6 + j + 1)
      | none => none
    else none
  | [] => none

/-- Characters ending the lazy part of the bare SELECT pattern (the
lookahead alternatives quote, semicolon, closing parenthesis). -/
def countUntilStop : List Char → Nat
  | [] => 0
  | c :: rest =>
    if c = '"' || c = '\'' || c = ';' || c = ')' then 0 else 1 + countUntilStop rest

/-- Bare pattern SELECT[any]*?(?=stop or end) with the i flag. -/
def bareSelScan (l : List Char) : Option Nat :=
  if "select".data.isPrefixOf (lowerChars (l.take 6)) then
    some (6 + countUntilStop (l.drop 6))
  else none

/-- The SQL pattern loop of traceConfigurationMethod: double-quoted, then
single-quoted, then bare SELECT; the first pattern with any match wins and
its first match is taken. -/
def findSqlInBody (body : List Char) : Option (List Char) :=
  match findFirstMatch (quoteSelScan '"') body with
  | some m => some m
  | none =>
    match findFirstMatch (quoteSelScan '\'') body with
    | some m => some m
    | none => findFirstMatch bareSelScan body

/-- replace(^quote or quote$, '') : strip one leading and one trailing
quote character. -/
def stripQuotesEnds (l : List Char) : List Char :=
  let l1 := match l with
    | c :: rest => if c = '"' || c = '\'' then rest else l
    | [] => l
  match l1.reverse with
  | c :: rest => if c = '"' || c = '\'' then rest.reverse else l1
  | [] => l1

/-- Table pattern FROM\s+(\w+) with the i flag: the captured word after
the first FROM followed by whitespace. -/
def fromTableScan : List Char → Option (List Char)
  | [] => none
  | c :: rest =>
    match
      (if "from".data.isPrefixOf (lowerChars ((c :: rest).take 4)) then
        let after := (c :: rest).drop 4
        let w := Norm.runLen isSpaceC after
        if 1 ≤ w then
          let word := (after.drop w).takeWhile Norm.isWordC
          if word.isEmpty then none else some word
        else none
      else none) with
    | some word => some word
    | none => fromTableScan rest

/-- Does a span contain one of the SQL keywords, case-insensitively? -/
def hasKeyword (span : List Char) : Bool :=
  let low := lowerChars span
  hasSub low "select".data || hasSub low "insert".data ||
    hasSub low "update".data || hasSub low "delete".data

/-- Keyword-in-quotes pattern q([^q]*(?:SELECT|INSERT|UPDATE|DELETE)[^q]*)q
with the i flag: the first quote pair whose span contains a keyword; a
failed opening quote position is simply passed over. -/
def quotedKeywordScan (q : Char) : List Char → Option (List Char)
  | [] => none
  | c :: rest =>
    if c = q then
      match firstIdxOf q rest with
      | some j =>
        if hasKeyword (rest.take j) then some (rest.take j) else quotedKeywordScan q rest
      | none => quotedKeywordScan q rest
    else quotedKeywordScan q rest

/-- The lazy triple-quote close: the minimal consumed span that both
contains a keyword and is followed by three double quotes. -/
def tqGo (orig : List Char) : Nat → List Char → Option Nat
  | consumed, remaining =>
    if ['"', '"', '"'].isPrefixOf remaining && hasKeyword (orig.take consumed) then
      some consumed
    else
      match remaining with
      | [] => none
      | _ :: r => tqGo orig (consumed + 1) r

/-- Triple-quoted keyword pattern, tried last by extractSQLFromContext. -/
def tripleQuoteScan : List Char → Option (List Char)
  | '"' :: '"' :: '"' :: rest => (tqGo rest 0 rest).map (fun n => rest.take n)
  | _ :: rest => tripleQuoteScan rest
  | [] => none

/-- extractSQLFromContext: the four quote patterns in order; the captured
span is whitespace-collapsed and trimmed. -/
def extractSQLFromContext (context : String) : Option String :=
  let body :=
    match quotedKeywordScan '"' context.data with
    | some m => some m
    | none =>
      match quotedKeywordScan '\'' context.data with
      | some m => some m
      | none =>
        match quotedKeywordScan (Char.ofNat 96) context.data with
        | some m => some m
        | none => tripleQuoteScan context.data
  body.map (fun m => String.mk (trimChars (Norm.collapseWsGo false m)))

end Sql

/-! ## Dependency Resolver, engine one: CodeTraversalEngine
(src/analysis/codeTraversalEngine.js) -/

namespace CTE

/-- One TraceStep of a configuration population chain. -/
structure TraceStep where
  step : Nat
  description : String
  location : Option String
deriving DecidableEq

/-- A parsed method call (parseMethodCalls). -/
structure MethodCallInfo where
  fullCall : String
  object : Option String
  method : String
  parameters : List String
deriving DecidableEq

/-- A resolved method (resolveMethodCall); definition, source and body are
null when no definition was found. -/
structure MethodInfo where
  call : String
  definition : Option String
  source : Option String
  body : Option String
deriving DecidableEq

/-- The configuration trace record built by traceConfigurationMethod. -/
structure ConfigInfo where
  method : String
  source : Option String
  dataSource : Option String
  sqlQuery : Option String
  tableName : Option String
  populationSteps : List TraceStep
deriving DecidableEq

/-- buildConfigurationSteps: usage point, resolved method (when a
definition exists), database load (when the data source is the database,
located at the table name), SQL query (when one was extracted). -/
def buildConfigurationSteps (mc : MethodCallInfo) (mi : MethodInfo) (ci : ConfigInfo) :
    List TraceStep :=
  [⟨1, "Configuration accessed: " ++ mc.fullCall, some "Usage point"⟩] ++
  (match mi.definition with
   | some d => [⟨2, "Resolved to method: " ++ d, mi.source⟩]
   | none => []) ++
  (if ci.dataSource = some "database" then
    [⟨3, "Data loaded from database", some (ci.tableName.getD "Database table")⟩] ++
    (match ci.sqlQuery with
     | some q => [⟨4, "SQL Query: " ++ q, some "Database query"⟩]
     | none => [])
  else [])

/-- traceConfigurationMethod: null on a missing or empty method body;
otherwise extract the first SQL string, mark the database data source when
jdbcTemplate appears in the body, resolve the table from the query's FROM
clause, and synthesize the population steps. -/
def traceConfigurationMethod (mc : MethodCallInfo) (mi : MethodInfo) : Option ConfigInfo :=
  match mi.body with
  | none => none
  | some body =>
    if body = "" then none
    else
      let sqlRaw := Sql.findSqlInBody body.data
      let sqlQuery := sqlRaw.map (fun m => trimStr (String.mk (Sql.stripQuotesEnds m)))
      let dataSource1 : Option String := if sqlRaw.isSome then some "database" else none
      let jdbc := jsIncludes body "jdbcTemplate"
      let dataSource := if jdbc then some "database" else dataSource1
      let tableName : Option String :=
        if jdbc then sqlQuery.bind (fun q => (Sql.fromTableScan q.data).map String.mk)
        else none
      let ci0 : ConfigInfo :=
        { method := mc.fullCall, source := mi.source, dataSource := dataSource,
          sqlQuery := sqlQuery, tableName := tableName, populationSteps := [] }
      some { ci0 with populationSteps := buildConfigurationSteps mc mi ci0 }

end CTE

/-! ## Dependency Resolver, engine two: EnhancedTraversalAnalyzer
(src/unnamed/part_008) -/

namespace Trav

/-- maxTraversalDepth of the analyzer's constructor. -/
def maxTraversalDepth : Nat := 10

/-- A smartSearch result as consumed by the analyzer. -/
structure SRLite where
  file : String
  line : Nat
  context : String
deriving DecidableEq

/-- A source location stored inside a Dependency. -/
structure DepSource where
  file : String
  line : Nat
  context : String
deriving DecidableEq

/-- A Dependency record; the JS objects are heterogeneous and each
constructor site fills exactly its own keys, the others staying absent
(none / empty).  The JS key named type is spelled dtype. -/
structure Dependency where
  dtype : String
  name : Option String := none
  pattern : Option String := none
  sqlQuery : Option String := none
  source : Option DepSource := none
  sources : List DepSource := []
  table : Option String := none
deriving DecidableEq

/-- The seven population-search patterns of traceConfigurationSource. -/
def configPatterns (configName : String) : List String :=
  [configName ++ ".*populate", configName ++ ".*put", configName ++ ".*add",
   "SELECT.*INTO.*" ++ configName, configName ++ ".*=.*query",
   "load.*" ++ configName, "init.*" ++ configName]

/-- traceConfigurationSource: the dependencies it appends for one
configuration reference.  The delegated smartSearch is the oracle,
called with (pattern, fileTypes, maxResults) as in the source.  For every
pattern match whose context yields an embedded SQL string a
configuration_source dependency is pushed carrying the name, the SQL text
and the source location; a property-file search can add one property_file
dependency. -/
def traceConfigurationSource (oracle : String → List String → Nat → List SRLite)
    (config : String) : List Dependency :=
  let configName := replaceFirst config "ConfigStore." ""
  ((configPatterns configName).flatMap (fun pat =>
    if 0 < (oracle pat ["java", "javascript"] 10).length then
      (oracle pat ["java", "javascript"] 10).filterMap (fun r =>
        (Sql.extractSQLFromContext r.context).map (fun sql =>
          { dtype := "configuration_source", name := some config, sqlQuery := some sql,
            source := some ⟨r.file, r.line, r.context⟩ }))
    else [])) ++
  (if 0 < (oracle configName ["config"] 5).length then
    [{ dtype := "property_file", name := some config,
       sources := (oracle configName ["config"] 5).map (fun r => ⟨r.file, r.line, r.context⟩) }]
  else [])

/-- One array/collection data source (analyzeDataSources). -/
structure ArraySource where
  name : String
  operation : String
  initialization : List SRLite
deriving DecidableEq

/-- One configuration data source (analyzeDataSources). -/
structure ConfigSource where
  name : String
  populationLogic : List SRLite
deriving DecidableEq

/-- One SQL query data source (analyzeDataSources). -/
structure QuerySource where
  qtype : String
  query : Option String
  context : String
  tables : List String
deriving DecidableEq

/-- One external data source (environment variables etc.). -/
structure ExtSource where
  etype : String
  name : String
  usage : String
deriving DecidableEq

/-- The flattened dataSourceAnalysis view. -/
structure DataSourceAnalysis where
  arrays : List ArraySource
  constants : List SRLite
  queries : List QuerySource
  configurations : List ConfigSource
  externalSources : List ExtSource
deriving DecidableEq

/-- One visited file of the traversal path. -/
structure PathEntry where
  file : String
  depth : Nat
deriving DecidableEq

/-- The analysis fields read by generateRecommendations. -/
structure AnalysisRec where
  dataSourceAnalysis : DataSourceAnalysis
  traversalPath : List PathEntry
deriving DecidableEq

/-- A recommendation; the JS key named type is spelled rtype. -/
structure Recommendation where
  rtype : String
  message : String
  suggestion : String
deriving DecidableEq

/-- generateRecommendations: uninitialized collections, missing
configuration sources, incomplete queries, external dependencies, and -
only when the traversal path is longer than five entries and revisits a
file - the potential circular dependency warning. -/
def generateRecommendations (a : AnalysisRec) : List Recommendation :=
  (a.dataSourceAnalysis.arrays.filterMap (fun arr =>
    if arr.initialization.length = 0 then
      some ⟨"uninitialized_collection",
        "Array/Collection '" ++ arr.name ++ "' is being used but initialization not found",
        "Search for where '" ++ arr.name ++ "' is created or passed as parameter"⟩
    else none)) ++
  (a.dataSourceAnalysis.configurations.filterMap (fun cfg =>
    if cfg.populationLogic.length = 0 then
      some ⟨"missing_configuration",
        "Configuration '" ++ cfg.name ++ "' used but population logic not found",
        "Check ConfigStore initialization, database queries, or property files"⟩
    else none)) ++
  (a.dataSourceAnalysis.queries.filterMap (fun q =>
    if (match q.query with | none => true | some s => s = "") || q.tables.length = 0 then
      some ⟨"incomplete_query",
        "SQL query found but appears incomplete or malformed",
        "Verify the SQL query syntax and table references"⟩
    else none)) ++
  (if 0 < a.dataSourceAnalysis.externalSources.length then
    [⟨"external_dependencies",
      "Found " ++ toString a.dataSourceAnalysis.externalSources.length ++
        " external dependencies (env vars, properties)",
      "Ensure all environment variables and property files are properly configured"⟩]
  else []) ++
  (if 5 < a.traversalPath.length then
    let files := a.traversalPath.map (·.file)
    if files.dedup.length < files.length then
      [⟨"potential_circular_dependency",
        "Detected potential circular dependency in file references",
        "Review the dependency chain to avoid circular references"⟩]
    else []
  else [])

end Trav

/-! ## Concrete fixtures used by the theorems below -/

namespace Fix

/-- Two distinct files discovered under two different search roots that
share one relative path. -/
def fileDupA : Search.FileEntry := ⟨"/root1/a.txt", "a.txt", ".txt", "a.txt", "/root1", "docs"⟩

/-- Second file with the same relative path (see fileDupA). -/
def fileDupB : Search.FileEntry := ⟨"/root2/a.txt", "a.txt", ".txt", "a.txt", "/root2", "docs"⟩

/-- Two files with distinct relative paths. -/
def fileW1 : Search.FileEntry := ⟨"/r/a.txt", "a.txt", ".txt", "a.txt", "/r", "docs"⟩

/-- Second file with a distinct relative path (see fileW1). -/
def fileW2 : Search.FileEntry := ⟨"/r/b.txt", "b.txt", ".txt", "b.txt", "/r", "docs"⟩

/-- One raw pattern match on line 1. -/
def oneRaw : Search.RawMatch := ⟨1, 1, "q", "line1", "exact", 10, "q"⟩

/-- A per-file matching oracle finding exactly one match in every file. -/
def rawOne : Search.FileEntry → List Search.RawMatch := fun _ => [oneRaw]

/-- The configuration method call parsed from the snippet
if (!ConfigStore.colPlanList.contains(x)). -/
def c5mc : CTE.MethodCallInfo :=
  ⟨"ConfigStore.colPlanList.contains", some "ConfigStore.colPlanList", "contains", ["x"]⟩

/-- Method information whose body is the population method
populateColPlanList calling jdbcTemplate.query on PLAN_TABLE. -/
def c5mi : CTE.MethodInfo :=
  ⟨"ConfigStore.colPlanList.contains", some "public void populateColPlanList() \x7b",
   some "src/ConfigLoader.java",
   some "\x7b\n  jdbcTemplate.query(\"SELECT * FROM PLAN_TABLE\");\n\x7d"⟩

/-- A delegated-search oracle standing for the source tree of the C5
scenario: the population pattern finds the populateColPlanList line whose
context carries the embedded PLAN_TABLE query. -/
def c5oracle : String → List String → Nat → List Trav.SRLite := fun pat _ _ =>
  if pat = "colPlanList.*populate" then
    [⟨"src/ConfigLoader.java", 2, "jdbcTemplate.query(\"SELECT * FROM PLAN_TABLE\");"⟩]
  else []

/-- The configuration record expected from traceConfigurationMethod on
the PLAN_TABLE scenario. -/
def c5ci : CTE.ConfigInfo where
  method := "ConfigStore.colPlanList.contains"
  source := some "src/ConfigLoader.java"
  dataSource := some "database"
  sqlQuery := some "SELECT * FROM PLAN_TABLE"
  tableName := some "PLAN_TABLE"
  populationSteps :=
    [⟨1, "Configuration accessed: ConfigStore.colPlanList.contains", some "Usage point"⟩,
     ⟨2, "Resolved to method: public void populateColPlanList() \x7b",
       some "src/ConfigLoader.java"⟩,
     ⟨3, "Data loaded from database", some "PLAN_TABLE"⟩,
     ⟨4, "SQL Query: SELECT * FROM PLAN_TABLE", some "Database query"⟩]

/-- The configuration_source dependency produced in the C5 scenario. -/
def c5dep : Trav.Dependency where
  dtype := "configuration_source"
  name := some "ConfigStore.colPlanList"
  sqlQuery := some "SELECT * FROM PLAN_TABLE"
  source := some ⟨"src/ConfigLoader.java", 2,
    "jdbcTemplate.query(\"SELECT * FROM PLAN_TABLE\");"⟩

/-- An analysis whose short traversal path revisits a file. -/
def c9short : Trav.AnalysisRec :=
  ⟨⟨[], [], [], [], []⟩, [⟨"A.java", 0⟩, ⟨"A.java", 1⟩]⟩

/-- An analysis whose traversal path is longer than five and revisits a
file. -/
def c9long : Trav.AnalysisRec :=
  ⟨⟨[], [], [], [], []⟩,
   [⟨"A.java", 0⟩, ⟨"B.java", 1⟩, ⟨"C.java", 2⟩, ⟨"D.java", 3⟩, ⟨"E.java", 4⟩, ⟨"A.java", 5⟩]⟩

/-- The first literal fallback match of pattern AB in content abc ABC
(case-insensitive). -/
def c7match : Search.RawMatch := ⟨1, 1, "ab", "abc ABC", "exact", 10, "AB"⟩

/-- A one-directory tree with a single source file. -/
def c8tree : List Walker.FsNode := [Walker.FsNode.dir "s" [Walker.FsNode.file "x.java"]]

end Fix

/-! ## Auxiliary instances -/

instance {e a : Type} [DecidableEq e] [DecidableEq a] : DecidableEq (Except e a) := fun x y =>
  match x, y with
  | .error u, .error v =>
    if h : u = v then isTrue (by rw [h]) else isFalse (fun hh => h (Except.error.injEq u v ▸ hh))
  | .ok u, .ok v =>
    if h : u = v then isTrue (by rw [h]) else isFalse (fun hh => h (Except.ok.injEq u v ▸ hh))
  | .error _, .ok _ => isFalse (fun hh => Except.noConfusion hh)
  | .ok _, .error _ => isFalse (fun hh => Except.noConfusion hh)

/-! ## Order instances for the sort comparators -/

/-- charListLe is total. -/
theorem charListLe_total : ∀ (a b : List Char),
    Search.charListLe a b = true ∨ Search.charListLe b a = true := by
  intro a
  induction a with
  | nil => intro b; exact Or.inl rfl
  | cons x xs ih =>
    intro b
    cases b with
    | nil => exact Or.inr rfl
    | cons y ys =>
      unfold Search.charListLe
      rcases lt_trichotomy x y with h | h | h
      · left
        rw [if_pos h]
      · subst h
        rcases ih ys with h2 | h2
        · left
          rw [if_neg (lt_irrefl x), if_neg (lt_irrefl x)]
          exact h2
        · right
          rw [if_neg (lt_irrefl x), if_neg (lt_irrefl x)]
          exact h2
      · right
        rw [if_pos h]

/-- charListLe is transitive. -/
theorem charListLe_trans : ∀ (a b c : List Char),
    Search.charListLe a b = true → Search.charListLe b c = true →
    Search.charListLe a c = true := by
  intro a
  induction a with
  | nil => intro b c _ _; rfl
  | cons x xs ih =>
    intro b c hab hbc
    cases b with
    | nil => simp [Search.charListLe] at hab
    | cons y ys =>
      cases c with
      | nil => simp [Search.charListLe] at hbc
      | cons z zs =>
        unfold Search.charListLe at hab hbc ⊢
        rcases lt_trichotomy x y with h1 | h1 | h1
        · rcases lt_trichotomy y z with h2 | h2 | h2
          · rw [if_pos (lt_trans h1 h2)]
          · subst h2
            rw [if_pos h1]
          · rw [if_pos h2, if_neg (lt_asymm h2)] at hbc
            simp at hbc
        · subst h1
          rcases lt_trichotomy x z with h2 | h2 | h2
          · rw [if_pos h2]
          · subst h2
            rw [if_neg (lt_irrefl x), if_neg (lt_irrefl x)] at hab hbc ⊢
            exact ih ys zs hab hbc
          · rw [if_pos h2, if_neg (lt_asymm h2)] at hbc
            simp at hbc
        · rw [if_pos h1, if_neg (lt_asymm h1)] at hab
          simp at hab

instance : IsTotal Search.ResultRec Search.resLe :=
  ⟨fun a b => by
    unfold Search.resLe
    rcases Nat.lt_trichotomy a.relevanceScore b.relevanceScore with h | h | h
    · exact Or.inr (Or.inl h)
    · rcases charListLe_total a.file.data b.file.data with hf | hf
      · exact Or.inl (Or.inr ⟨h, hf⟩)
      · exact Or.inr (Or.inr ⟨h.symm, hf⟩)
    · exact Or.inl (Or.inl h)⟩

instance : IsTrans Search.ResultRec Search.resLe :=
  ⟨fun a b c hab hbc => by
    unfold Search.resLe at *
    rcases hab with h1 | ⟨h1, hf1⟩ <;> rcases hbc with h2 | ⟨h2, hf2⟩
    · exact Or.inl (Nat.lt_trans h2 h1)
    · exact Or.inl (by omega)
    · exact Or.inl (by omega)
    · exact Or.inr ⟨h1.trans h2, charListLe_trans _ _ _ hf1 hf2⟩⟩

/-! ## Theorems -/

/-- Every list is a prefix of itself under BEq scanning. -/
theorem isPrefixOf_self (l : List Char) : l.isPrefixOf l = true := by
  induction l with
  | nil => rfl
  | cons a as ih => simp [List.isPrefixOf, ih]

/-- A text ending in the pattern contains the pattern. -/
theorem hasSub_append_right (l sub : List Char) (h : sub ≠ []) :
    hasSub (l ++ sub) sub = true := by
  induction l with
  | nil =>
    cases sub with
    | nil => exact absurd rfl h
    | cons c cs => simp [hasSub, isPrefixOf_self]
  | cons c cs ih => simp [hasSub, ih]

/-- A text containing a non-empty pattern is non-empty. -/
theorem hasSub_ne_nil {l sub : List Char} (h : hasSub l sub = true) (hs : sub ≠ []) :
    l ≠ [] := by
  intro hl
  subst hl
  simp [hasSub, List.isEmpty_iff] at h
  exact hs h

/-- C10 (amended): for every input string of length at most 4096 whose
text contains the two-character substring .. anywhere, validatePath
returns the invalid result with code TRAVERSAL_DETECTED, for every
normalize/resolve/filesystem behaviour and platform: the rejection is
decided on the literal text of the raw path. -/
theorem validatePath_traversal_detected (normalize resolve : String → String)
    (isSymlink : String → Bool) (realpath : String → String) (platform : String)
    (fuel : Nat) (p : String) (hlen : p.length ≤ 4096)
    (hdots : jsIncludes p ".." = true) :
    PathSec.validatePath normalize resolve isSymlink realpath platform fuel p =
      ⟨false, some "Security violation: Directory traversal detected",
        some "TRAVERSAL_DETECTED", none⟩ := by
  have hne : ¬(p.length = 0) := by
    intro h0
    have hd : p.data = [] := by
      cases hx : p.data with
      | nil => rfl
      | cons c cs =>
        exfalso
        have : p.length = cs.length + 1 := by
          simp [String.length, hx]
        omega
    exact hasSub_ne_nil hdots (by decide) hd
  have hlen2 : ¬(PathSec.maxPathLength < p.length) := by
    unfold PathSec.maxPathLength
    omega
  unfold PathSec.validatePath
  rw [if_neg hne, if_neg hlen2]
  have hcond : (jsIncludes (normalize p) ".." || jsIncludes p "..") = true := by
    rw [hdots, Bool.or_true]
  simp only [hcond, if_true]

/-- C10 witness: the single-name path my..notes.txt is rejected with
TRAVERSAL_DETECTED although it has no parent-directory segment. -/
theorem validatePath_traversal_detected_witness :
    ("my..notes.txt".length ≤ 4096 ∧ jsIncludes "my..notes.txt" ".." = true) ∧
    PathSec.validatePath id id (fun _ => false) id "linux" 1 "my..notes.txt" =
      ⟨false, some "Security violation: Directory traversal detected",
        some "TRAVERSAL_DETECTED", none⟩ :=
  ⟨⟨by decide, by decide⟩,
   validatePath_traversal_detected id id (fun _ => false) id "linux" 1 "my..notes.txt"
     (by decide) (by decide)⟩

/-- C10 counterexample: a 4097-character path containing .. is rejected
with code PATH_TOO_LONG, not TRAVERSAL_DETECTED — the length check runs
before the traversal check. -/
theorem validatePath_long_path_counterexample :
    jsIncludes (String.mk (List.replicate 4095 'a' ++ ['.', '.'])) ".." = true ∧
    (PathSec.validatePath id id (fun _ => false) id "linux" 1
        (String.mk (List.replicate 4095 'a' ++ ['.', '.']))).code =
      some "PATH_TOO_LONG" := by
  constructor
  · exact hasSub_append_right (List.replicate 4095 'a') ['.', '.'] (by decide)
  · have hlen : (String.mk (List.replicate 4095 'a' ++ ['.', '.'])).length = 4097 := by
      show (List.replicate 4095 'a' ++ ['.', '.']).length = 4097
      rw [List.length_append, List.length_replicate]
      decide
    unfold PathSec.validatePath
    rw [if_neg (by omega), if_pos (by unfold PathSec.maxPathLength; omega)]

/-- C2 (amended, walker part): the allowed-root prefix check is enforced
by the sync file walker, not by validatePath: getAllFilesSync returns no
entries for a directory whose resolved path starts with no resolved
allowed path. -/
theorem allowlist_enforced_in_walker (resolve : String → String)
    (allowedPaths : List String) (maxDepth currentDepth : Nat) (dirPath : String)
    (nodes : List Walker.FsNode)
    (h : (allowedPaths.any fun a => jsStartsWith (resolve dirPath) (resolve a)) = false) :
    SyncWalker.getAllFilesSync resolve allowedPaths maxDepth currentDepth dirPath nodes = [] := by
  unfold SyncWalker.getAllFilesSync
  simp [h]

/-- C2 witness: with the single allowed root /workspace, the walk of
/home/user/project is empty. -/
theorem allowlist_enforced_in_walker_witness :
    ((["/workspace"].any fun a =>
        jsStartsWith (id "/home/user/project") (id a)) = false) ∧
    SyncWalker.getAllFilesSync id ["/workspace"] 30 0 "/home/user/project"
      [Walker.FsNode.file "notes.txt"] = [] :=
  ⟨by decide,
   allowlist_enforced_in_walker id ["/workspace"] 30 0 "/home/user/project"
     [Walker.FsNode.file "notes.txt"] (by decide)⟩

/-- C2 counterexample: validatePath accepts /home/user/project/notes.txt —
a path whose resolved form starts with no configured allowed root
(roots ["/workspace"]) — because it performs no allowed-root check at all;
it only rejects traversal, denylist matches and bad symlinks. -/
theorem validatePath_no_allowlist_counterexample :
    (PathSec.validatePath id id (fun _ => false) id "linux" 1
        "/home/user/project/notes.txt").valid = true ∧
    (∀ root ∈ ["/workspace"],
      jsStartsWith (id "/home/user/project/notes.txt") (id root) = false) := by
  constructor
  · decide
  · decide

/-- C9 counterexample: an analysis whose traversal path revisits a file
(two entries, one unique) yields no recommendation at all — the circular
dependency warning additionally requires the path to be longer than five
entries, which the claim omits. -/
theorem generateRecommendations_short_path_counterexample :
    ((Fix.c9short.traversalPath.map (·.file)).dedup.length <
      (Fix.c9short.traversalPath.map (·.file)).length) ∧
    Trav.generateRecommendations Fix.c9short = [] := by
  constructor
  · decide
  · decide

/-- C9 (amended): whenever the traversal path is longer than five entries
and revisits a file (fewer unique files than entries), the analysis emits
a recommendation typed potential_circular_dependency; the traversal depth
bound maxTraversalDepth defaults to 10. -/
theorem generateRecommendations_circular_amended (a : Trav.AnalysisRec)
    (hlen : 5 < a.traversalPath.length)
    (hdup : (a.traversalPath.map (·.file)).dedup.length <
      (a.traversalPath.map (·.file)).length) :
    (∃ r ∈ Trav.generateRecommendations a, r.rtype = "potential_circular_dependency") ∧
    Trav.maxTraversalDepth = 10 := by
  refine ⟨?_, rfl⟩
  refine ⟨⟨"potential_circular_dependency",
    "Detected potential circular dependency in file references",
    "Review the dependency chain to avoid circular references"⟩, ?_, rfl⟩
  unfold Trav.generateRecommendations
  refine List.mem_append_right _ ?_
  rw [if_pos hlen]
  show _ ∈ (if (a.traversalPath.map (·.file)).dedup.length <
      (a.traversalPath.map (·.file)).length then _ else [])
  rw [if_pos hdup]
  exact List.mem_singleton_self _

/-- C9 witness: a six-entry path revisiting A.java produces the circular
dependency recommendation. -/
theorem generateRecommendations_circular_amended_witness :
    (5 < Fix.c9long.traversalPath.length ∧
      (Fix.c9long.traversalPath.map (·.file)).dedup.length <
        (Fix.c9long.traversalPath.map (·.file)).length) ∧
    ((∃ r ∈ Trav.generateRecommendations Fix.c9long,
        r.rtype = "potential_circular_dependency") ∧
      Trav.maxTraversalDepth = 10) :=
  ⟨⟨by decide, by decide⟩,
   generateRecommendations_circular_amended Fix.c9long (by decide) (by decide)⟩

/-- C4 counterexample: moderate normalization is not idempotent — the
hex literal written with an upper-case 0X survives the first pass only
case-folded to 0xab, and a second pass then rewrites it to hex. -/
theorem normalizeLogText_not_idempotent :
    Norm.normalizeLogText "0XAB" "moderate" = "0xab" ∧
    Norm.normalizeLogText (Norm.normalizeLogText "0XAB" "moderate") "moderate" = "hex" ∧
    Norm.normalizeLogText (Norm.normalizeLogText "0XAB" "moderate") "moderate" ≠
      Norm.normalizeLogText "0XAB" "moderate" := by
  refine ⟨by decide, by decide, by decide⟩

/-- C4 (amended): on the example input the moderate pipeline replaces the
IP address with the token IP and the timestamp with TIMESTAMP before the
case-folding step lower-cases them, preserves the status code 404
verbatim, and is idempotent on this particular string (though not in
general, see the counterexample). -/
theorem normalizeLogText_moderate_example :
    Norm.normalizeLogText "User 192.168.0.5 failed at 2023-01-01T10:00:00Z code=404"
        "moderate" = "user ip failed at timestamp code=404" ∧
    Norm.normalizeLogText "user ip failed at timestamp code=404" "moderate" =
      "user ip failed at timestamp code=404" ∧
    jsIncludes "user ip failed at timestamp code=404" "404" = true := by
  refine ⟨by decide, by decide, by decide⟩

/-- Every dependency ever emitted by traceConfigurationSource carries no
resolved table name: the configuration_source records hold only the name,
the SQL text and the source location. -/
theorem traceConfigurationSource_table_none
    (oracle : String → List String → Nat → List Trav.SRLite) (config : String) :
    ∀ d ∈ Trav.traceConfigurationSource oracle config, d.table = none := by
  intro d hd
  unfold Trav.traceConfigurationSource at hd
  rw [List.mem_append] at hd
  rcases hd with h | h
  · rw [List.mem_flatMap] at h
    obtain ⟨pat, _, hmem⟩ := h
    split at hmem
    · rw [List.mem_filterMap] at hmem
      obtain ⟨r, _, hr⟩ := hmem
      rw [Option.map_eq_some'] at hr
      obtain ⟨sql, _, rfl⟩ := hr
      rfl
    · simp at hmem
  · split at h
    · rw [List.mem_singleton] at h
      subst h
      rfl
    · simp at h

/-- C5 (amended): given the method call of the snippet
if (!ConfigStore.colPlanList.contains(x)) resolved to the population
method populateColPlanList whose body calls
jdbcTemplate.query("SELECT * FROM PLAN_TABLE"), the
CodeTraversalEngine's traceConfigurationMethod yields a configuration
record with tableName PLAN_TABLE and a population TraceStep chain of
length at least 3; the snippet-level resolver's configuration_source
dependencies, in contrast, never carry a resolved table name under any
search behaviour. -/
theorem configuration_table_resolution_amended :
    (∃ ci, CTE.traceConfigurationMethod Fix.c5mc Fix.c5mi = some ci ∧
      ci.tableName = some "PLAN_TABLE" ∧ 3 ≤ ci.populationSteps.length) ∧
    (∀ (oracle : String → List String → Nat → List Trav.SRLite) (config : String),
      ∀ d ∈ Trav.traceConfigurationSource oracle config, d.table = none) := by
  constructor
  · exact ⟨Fix.c5ci, by decide, rfl, by decide⟩
  · exact fun oracle config => traceConfigurationSource_table_none oracle config

/-- C5 counterexample: on the claim's scenario — the ConfigStore reference
of the snippet against a tree containing populateColPlanList with the
embedded PLAN_TABLE query (represented by a delegated-search oracle that
does find that population line) — the dependency resolver emits a
configuration_source dependency, but none carrying the resolved table
name PLAN_TABLE (none carries any table name at all, and no TraceStep
chain exists on these records). -/
theorem traceConfigurationSource_no_table_counterexample :
    (Trav.traceConfigurationSource Fix.c5oracle "ConfigStore.colPlanList").length = 1 ∧
    (∀ d ∈ Trav.traceConfigurationSource Fix.c5oracle "ConfigStore.colPlanList",
      d.dtype = "configuration_source" ∧ d.sqlQuery = some "SELECT * FROM PLAN_TABLE" ∧
        ¬(d.table = some "PLAN_TABLE")) := by
  constructor
  · decide
  · decide

/-- C6 counterexample: with the caller-requested ceiling maxResults = 1,
the first one-file batch already yields one result, yet the second batch
is still processed and the batch loop returns two results — early
termination compares against the engine-level configured maximum (here
500), not the caller-requested value. -/
theorem processFilesInBatches_caller_ceiling_counterexample :
    1 ≤ (Search.searchFunction Fix.rawOne Fix.fileW1).length ∧
    (Search.processFilesInBatches 1 500 (Search.searchFunction Fix.rawOne)
        [Fix.fileW1, Fix.fileW2]).length = 2 := by
  constructor
  · decide
  · decide

/-- C6 (amended): the search engine processes candidate files in
fixed-size batches and, after completing any batch, skips all remaining
batches as soon as the running result count has reached the
engine-configured maximum-results value (this.maxResults); the
caller-requested per-call maxResults only truncates the final sorted
list. -/
theorem processFilesInBatches_engine_ceiling_stop (engineMax : Nat)
    (g : Search.FileEntry → List Search.ResultRec) (acc : List Search.ResultRec)
    (b : List Search.FileEntry) (bs : List (List Search.FileEntry))
    (h : engineMax ≤ (acc ++ (b.map g).flatten).length) :
    Search.runBatches engineMax g acc (b :: bs) = acc ++ (b.map g).flatten := by
  show (if engineMax ≤ (acc ++ (b.map g).flatten).length then acc ++ (b.map g).flatten
        else Search.runBatches engineMax g (acc ++ (b.map g).flatten) bs) =
      acc ++ (b.map g).flatten
  rw [if_pos h]

/-- C6 witness: one result in the first batch with an engine ceiling of
one stops the loop before the second batch. -/
theorem processFilesInBatches_engine_ceiling_stop_witness :
    (1 ≤ (([] : List Search.ResultRec) ++
        (([Fix.fileW1].map (Search.searchFunction Fix.rawOne)).flatten)).length) ∧
    Search.runBatches 1 (Search.searchFunction Fix.rawOne) []
        [[Fix.fileW1], [Fix.fileW2]] =
      ([] : List Search.ResultRec) ++
        (([Fix.fileW1].map (Search.searchFunction Fix.rawOne)).flatten) :=
  ⟨by decide,
   processFilesInBatches_engine_ceiling_stop 1 (Search.searchFunction Fix.rawOne) []
     [Fix.fileW1] [[Fix.fileW2]] (by decide)⟩

/-- With a search oracle yielding no results, trySearch never changes the
accumulated results. -/
theorem trySearch_empty_oracle (oracle : String → List Trace.TraceResult)
    (h : ∀ q, oracle q = []) (log : String) (st : Trace.TState) (q c : String) :
    (Trace.trySearch oracle log st q c).results = st.results := by
  unfold Trace.trySearch
  split
  · rfl
  · simp [h q]

/-- With an empty oracle, a strategy loop never changes the results. -/
theorem phraseLoop_empty_oracle (oracle : String → List Trace.TraceResult)
    (h : ∀ q, oracle q = []) (log c : String) :
    ∀ (ps : List String) (st : Trace.TState),
      (Trace.phraseLoop oracle log c st ps).results = st.results := by
  intro ps
  induction ps with
  | nil => intro st; rfl
  | cons p ps ih =>
    intro st
    unfold Trace.phraseLoop
    simp only []
    split
    · exact trySearch_empty_oracle oracle h log st p c
    · rw [ih _, trySearch_empty_oracle oracle h log st p c]

/-- With an empty oracle, the sub-phrase loop never changes the results. -/
theorem partLoop_empty_oracle (oracle : String → List Trace.TraceResult)
    (h : ∀ q, oracle q = []) (log : String) :
    ∀ (ps : List String) (st : Trace.TState),
      (Trace.partLoop oracle log st ps).results = st.results := by
  intro ps
  induction ps with
  | nil => intro st; rfl
  | cons p ps ih =>
    intro st
    unfold Trace.partLoop
    split
    · simp only []
      split
      · exact trySearch_empty_oracle oracle h log st (trimStr p) "phrase_part"
      · rw [ih _, trySearch_empty_oracle oracle h log st (trimStr p) "phrase_part"]
    · exact ih st

/-- C3: for every log, every pair of phrase extractors and every set of
search roots (the delegated search being the oracle), when every delegated
search yields zero results the tracer returns exactly the sentinel string;
the embedding is a total function, so no exception can propagate. -/
theorem traceErrorLogToSource_sentinel (oracle : String → List Trace.TraceResult)
    (kp et : String → List String) (log : String) (h : ∀ q, oracle q = []) :
    Trace.traceErrorLogToSource oracle kp et log =
      "No matching source found for the error log." := by
  have hres : (Trace.errorTypePhase oracle et log
      (Trace.moderatePhase oracle log
        (Trace.lightPhase oracle log
          (Trace.phraseLoop oracle log "key_phrase" ⟨[], []⟩ (kp log))))).results = [] := by
    have h1 : (Trace.phraseLoop oracle log "key_phrase"
        (⟨[], []⟩ : Trace.TState) (kp log)).results = [] := by
      rw [phraseLoop_empty_oracle oracle h]
    have h2 : ∀ st : Trace.TState, (Trace.lightPhase oracle log st).results = st.results := by
      intro st
      unfold Trace.lightPhase
      split
      · exact trySearch_empty_oracle oracle h log st _ _
      · rfl
    have h3 : ∀ st : Trace.TState, (Trace.moderatePhase oracle log st).results = st.results := by
      intro st
      unfold Trace.moderatePhase
      split
      · rw [partLoop_empty_oracle oracle h, trySearch_empty_oracle oracle h]
      · rfl
    have h4 : ∀ st : Trace.TState,
        (Trace.errorTypePhase oracle et log st).results = st.results := by
      intro st
      unfold Trace.errorTypePhase
      split
      · exact phraseLoop_empty_oracle oracle h log _ (et log) st
      · rfl
    rw [h4, h3, h2, h1]
  unfold Trace.traceErrorLogToSource
  simp only [hres, List.length_nil, if_pos]
  rfl

/-- C3 witness: a concrete log with concrete extractors and the empty
oracle yields the sentinel. -/
theorem traceErrorLogToSource_sentinel_witness :
    Trace.traceErrorLogToSource (fun _ => [])
        (fun _ => ["NullPointerException", "OrderService.process"])
        (fun _ => ["NullPointerException"])
        "ERROR: NullPointerException at OrderService.process(OrderService.java:42)" =
      "No matching source found for the error log." :=
  traceErrorLogToSource_sentinel (fun _ => [])
    (fun _ => ["NullPointerException", "OrderService.process"])
    (fun _ => ["NullPointerException"])
    "ERROR: NullPointerException at OrderService.process(OrderService.java:42)"
    (fun _ => rfl)

/-- Every entry produced while scanning a directory's children at
currentDepth (with currentDepth still below maxDepth) has at most
maxDepth - currentDepth path segments. -/
theorem scanDirectory_depth (maxDepth : Nat) (skip exts : List String) :
    ∀ (depth : Nat) (nodes : List Walker.FsNode),
      depth < maxDepth →
      ∀ e ∈ Walker.scanDirectory maxDepth skip exts depth nodes,
        depth + e.segs.length ≤ maxDepth := by
  intro depth nodes
  induction depth, nodes using Walker.scanDirectory.induct maxDepth skip exts with
  | case1 d =>
    intro _ e he
    simp [Walker.scanDirectory] at he
  | case2 d name rest ih =>
    intro hd e he
    unfold Walker.scanDirectory at he
    rw [List.mem_append] at he
    rcases he with he | he
    · split at he
      · rw [List.mem_singleton] at he
        subst he
        simp only [List.length_singleton]
        omega
      · simp at he
    · exact ih hd e he
  | case3 d name children rest ih1 ih2 =>
    intro hd e he
    unfold Walker.scanDirectory at he
    rw [List.mem_append] at he
    rcases he with he | he
    · split at he
      · simp at he
      · split at he
        · simp at he
        · rename_i hguard
          rw [List.mem_map] at he
          obtain ⟨e0, he0, rfl⟩ := he
          have hd1 : d + 1 < maxDepth := by omega
          have := ih1 hd1 e0 he0
          simp only [List.length_cons]
          omega
    · exact ih2 hd e he

/-- C8: for every walk with maxDepth = d over every tree, every FileEntry
of a successful result lies at most d directory levels below the walk
root. -/
theorem getAllFiles_depth_bound (rootValid : Bool) (maxDepth : Nat)
    (skipDirs extensions : List String) (rootNodes : List Walker.FsNode)
    (es : List Walker.WalkEntry)
    (hok : Walker.getAllFiles rootValid maxDepth skipDirs extensions rootNodes =
      Except.ok es) :
    ∀ e ∈ es, Walker.dirLevels e ≤ maxDepth := by
  intro e he
  unfold Walker.getAllFiles at hok
  split at hok
  · exact absurd hok (by simp)
  · split at hok
    · rw [Except.ok.injEq] at hok
      subst hok
      simp at he
    · rw [Except.ok.injEq] at hok
      subst hok
      rename_i hpos
      have h0 : 0 < maxDepth := by omega
      have := scanDirectory_depth maxDepth (Walker.defaultSkipDirs ++ skipDirs) extensions 0
        rootNodes h0 e he
      unfold Walker.dirLevels
      omega

/-- C8 witness: the file one directory below the root of a depth-3 walk
is at most 3 levels deep. -/
theorem getAllFiles_depth_bound_witness :
    Walker.dirLevels (⟨["s", "x.java"], "x.java", ".java"⟩ : Walker.WalkEntry) ≤ 3 :=
  getAllFiles_depth_bound true 3 [] [] Fix.c8tree
    [⟨["s", "x.java"], "x.java", ".java"⟩]
    (by
      simp only [Walker.getAllFiles, Fix.c8tree, Walker.scanDirectory]
      decide)
    ⟨["s", "x.java"], "x.java", ".java"⟩ (by decide)

/-- If pat is a BEq-scan prefix of l, taking pat.length characters of l
recovers pat. -/
theorem take_length_of_isPrefixOf :
    ∀ (pat l : List Char), pat.isPrefixOf l = true → l.take pat.length = pat := by
  intro pat
  induction pat with
  | nil => intro l _; rfl
  | cons a as ih =>
    intro l h
    cases l with
    | nil => simp [List.isPrefixOf] at h
    | cons b bs =>
      rw [List.isPrefixOf, Bool.and_eq_true] at h
      have hb : a = b := (eq_of_beq h.1)
      simp only [List.length_cons, List.take_succ_cons, hb]
      rw [ih bs h.2]

/-- A pattern that is a prefix of some suffix of the text is contained in
the text. -/
theorem hasSub_of_prefix_drop :
    ∀ (text : List Char) (i : Nat) (pat : List Char),
      pat.isPrefixOf (text.drop i) = true → hasSub text pat = true := by
  intro text
  induction text with
  | nil =>
    intro i pat h
    rw [List.drop_nil] at h
    cases pat with
    | nil => rfl
    | cons a as => simp [List.isPrefixOf] at h
  | cons c rest ih =>
    intro i pat h
    cases i with
    | zero =>
      rw [List.drop_zero] at h
      unfold hasSub
      rw [h, Bool.true_or]
    | succ j =>
      rw [List.drop_succ_cons] at h
      unfold hasSub
      rw [ih j pat h, Bool.or_true]

/-- Soundness of the indexOf scan helper: a found index points at an
occurrence. -/
theorem indexOfFrom_go_sound (pat : List Char) :
    ∀ (l : List Char) (j i : Nat), indexOfFrom.go pat l j = some i →
      j ≤ i ∧ pat.isPrefixOf (l.drop (i - j)) = true := by
  intro l
  induction l with
  | nil => intro j i h; simp [indexOfFrom.go] at h
  | cons c rest ih =>
    intro j i h
    unfold indexOfFrom.go at h
    split at h
    · rw [Option.some.injEq] at h
      subst h
      refine ⟨Nat.le_refl _, ?_⟩
      simpa using (by assumption : pat.isPrefixOf (c :: rest) = true)
    · obtain ⟨h1, h2⟩ := ih (j + 1) i h
      refine ⟨by omega, ?_⟩
      have : i - j = (i - (j + 1)) + 1 := by omega
      rw [this, List.drop_succ_cons]
      exact h2

/-- Soundness of indexOfFrom: a found index points at an occurrence. -/
theorem indexOfFrom_sound (text pat : List Char) (start i : Nat)
    (h : indexOfFrom text pat start = some i) :
    pat.isPrefixOf (text.drop i) = true := by
  unfold indexOfFrom at h
  split at h
  · exact absurd h (by simp)
  · obtain ⟨h1, h2⟩ := indexOfFrom_go_sound pat (text.drop start) start i h
    rw [List.drop_drop] at h2
    have heq : start + (i - start) = i := by omega
    rw [heq] at h2
    exact h2

/-- Every index collected by the literal indexOf loop points at an
occurrence of the pattern. -/
theorem literalScan_mem (text pat : List Char) :
    ∀ (fuel start i : Nat), i ∈ Search.literalScan text pat fuel start →
      pat.isPrefixOf (text.drop i) = true := by
  intro fuel
  induction fuel with
  | zero => intro start i h; simp [Search.literalScan] at h
  | succ f ih =>
    intro start i h
    unfold Search.literalScan at h
    split at h
    · simp at h
    · rw [List.mem_cons] at h
      rcases h with h | h
      · subst h
        exact indexOfFrom_sound text pat start _ (by assumption)
      · exact ih _ i h

/-- C7: for every content, pattern and options, when the regular
expression throws (the none oracle) findMatches runs the literal substring
fallback over the same text: every returned match's text is (case folded)
exactly the pattern, and the (case folded) pattern occurs in the (case
folded) content; the embedding is total, so no exception reaches the
caller. -/
theorem findMatches_fallback_literal (content : String) (pinfo : Search.PatternInfo)
    (cs : Bool) (ctx : Nat) (m : Search.RawMatch)
    (hm : m ∈ Search.findMatches none content pinfo cs ctx) :
    Search.findMatches none content pinfo cs ctx =
      Search.literalFallback content pinfo cs ctx ∧
    Search.foldCase cs m.matchText = Search.foldCase cs pinfo.pattern ∧
    jsIncludes (Search.foldCase cs content) (Search.foldCase cs pinfo.pattern) = true := by
  refine ⟨rfl, ?_⟩
  have hm2 : m ∈ Search.literalFallback content pinfo cs ctx := hm
  unfold Search.literalFallback at hm2
  cases cs with
  | true =>
    simp only [if_pos rfl, if_true] at hm2
    rw [List.mem_map] at hm2
    obtain ⟨i, hi, rfl⟩ := hm2
    have hpre := literalScan_mem content.data pinfo.pattern.data _ 0 i hi
    have htake := take_length_of_isPrefixOf pinfo.pattern.data (content.data.drop i) hpre
    constructor
    · show String.mk ((content.data.drop i).take pinfo.pattern.data.length) = pinfo.pattern
      rw [htake]
    · show jsIncludes content pinfo.pattern = true
      exact hasSub_of_prefix_drop content.data i pinfo.pattern.data hpre
  | false =>
    simp only [Bool.false_eq_true, if_false] at hm2
    rw [List.mem_map] at hm2
    obtain ⟨i, hi, rfl⟩ := hm2
    have hpre := literalScan_mem (lowerChars content.data) (lowerChars pinfo.pattern.data)
      _ 0 i hi
    have htake := take_length_of_isPrefixOf (lowerChars pinfo.pattern.data)
      ((lowerChars content.data).drop i) hpre
    constructor
    · show lowerStr (String.mk ((content.data.drop i).take
        (lowerChars pinfo.pattern.data).length)) = lowerStr pinfo.pattern
      unfold lowerStr lowerChars
      rw [List.map_take, List.map_drop]
      unfold lowerChars at htake
      rw [htake]
    · show jsIncludes (lowerStr content) (lowerStr pinfo.pattern) = true
      exact hasSub_of_prefix_drop (lowerChars content.data) i
        (lowerChars pinfo.pattern.data) hpre

/-- C7 witness: the malformed-regex fallback on content abc ABC with
pattern AB (case-insensitive) returns real literal occurrences. -/
theorem findMatches_fallback_literal_witness :
    Fix.c7match ∈ Search.findMatches none "abc ABC" ⟨"AB", "exact", 10⟩ false 3 ∧
    (Search.findMatches none "abc ABC" ⟨"AB", "exact", 10⟩ false 3 =
      Search.literalFallback "abc ABC" ⟨"AB", "exact", 10⟩ false 3 ∧
    Search.foldCase false Fix.c7match.matchText = Search.foldCase false "AB" ∧
    jsIncludes (Search.foldCase false "abc ABC") (Search.foldCase false "AB") = true) :=
  ⟨by decide,
   findMatches_fallback_literal "abc ABC" ⟨"AB", "exact", 10⟩ false 3 Fix.c7match (by decide)⟩

/-- One map insertion step preserves the distinctness of the line keys. -/
theorem dedupInsert_lines_nodup (acc : List Search.RawMatch) (r : Search.RawMatch)
    (h : (acc.map (·.line)).Nodup) :
    ((Search.dedupInsert acc r).map (·.line)).Nodup := by
  unfold Search.dedupInsert
  split
  · rw [List.map_map]
    have : acc.map ((·.line) ∘ fun x =>
        if x.line = r.line ∧ x.relevanceScore < r.relevanceScore then r else x) =
        acc.map (·.line) := by
      refine List.map_congr_left ?_
      intro x _
      by_cases hc : x.line = r.line ∧ x.relevanceScore < r.relevanceScore
      · simp only [Function.comp_apply, if_pos hc]
        exact hc.1.symm
      · simp only [Function.comp_apply, if_neg hc]
    rw [this]
    exact h
  · rename_i hany
    rw [List.map_append]
    rw [List.nodup_append]
    refine ⟨h, List.nodup_singleton _, ?_⟩
    intro x hx
    rw [List.mem_map] at hx
    obtain ⟨y, hy, hxy⟩ := hx
    have : ∀ z ∈ acc, ¬(z.line = r.line) := by
      intro z hz
      have hany2 : (acc.any fun x => x.line = r.line) = false :=
        Bool.eq_false_iff.mpr hany
      have := List.any_eq_false.mp hany2 z hz
      simpa using this
    simp only [List.map_singleton, List.mem_singleton]
    intro hcontra
    subst hcontra
    exact this y hy (by simpa using hxy)

/-- The uniqueByLine fold produces pairwise-distinct line keys. -/
theorem dedupFold_lines_nodup (rs : List Search.RawMatch) :
    ∀ acc, (acc.map (·.line)).Nodup →
      ((rs.foldl Search.dedupInsert acc).map (·.line)).Nodup := by
  induction rs with
  | nil => intro acc h; exact h
  | cons r rs ih =>
    intro acc h
    exact ih _ (dedupInsert_lines_nodup acc r h)

/-- deduplicateAndScore produces pairwise-distinct line keys. -/
theorem deduplicateAndScore_lines_nodup (rs : List Search.RawMatch) :
    ((Search.deduplicateAndScore rs).map (·.line)).Nodup := by
  unfold Search.deduplicateAndScore
  have hperm := (List.perm_insertionSort Search.lineLe (rs.foldl Search.dedupInsert [])).map
    (fun x : Search.RawMatch => x.line)
  exact hperm.nodup_iff.mpr (dedupFold_lines_nodup rs [] (by simp))

/-- The per-file search yields matches with pairwise-distinct lines. -/
theorem smartSearchInFile_lines_nodup (raws : List Search.RawMatch) (n : Nat) :
    ((Search.smartSearchInFile raws n).map (·.line)).Nodup := by
  unfold Search.smartSearchInFile
  rw [List.map_take]
  exact (deduplicateAndScore_lines_nodup raws).sublist (List.take_sublist _ _)

/-- Every result of the per-file search function carries the file's
relative path. -/
theorem searchFunction_file (rawOf : Search.FileEntry → List Search.RawMatch)
    (f : Search.FileEntry) :
    ∀ r ∈ Search.searchFunction rawOf f, r.file = f.relativePath := by
  intro r hr
  unfold Search.searchFunction at hr
  rw [List.mem_map] at hr
  obtain ⟨x, _, rfl⟩ := hr
  rfl

/-- Within one file's results no two matches share the (file, line) key. -/
theorem searchFunction_pairwise (rawOf : Search.FileEntry → List Search.RawMatch)
    (f : Search.FileEntry) :
    List.Pairwise Search.keyNe (Search.searchFunction rawOf f) := by
  unfold Search.searchFunction
  have h1 : List.Pairwise (fun a b : Search.RawMatch => a.line ≠ b.line)
      (Search.smartSearchInFile (rawOf f) 3) := by
    have := smartSearchInFile_lines_nodup (rawOf f) 3
    rw [List.Nodup, List.pairwise_map] at this
    exact this
  refine List.Pairwise.map _ ?_ h1
  intro a b hab
  intro hcontra
  exact hab hcontra.2

/-- Flattening the batch split recovers the file list. -/
theorem chunkListGo_flatten (b : Nat) :
    ∀ (fuel : Nat) (l : List Search.FileEntry), l.length ≤ fuel →
      (Search.chunkListGo b fuel l).flatten = l := by
  intro fuel
  induction fuel with
  | zero =>
    intro l hl
    have : l = [] := List.length_eq_zero.mp (by omega)
    subst this
    rfl
  | succ f ih =>
    intro l hl
    cases l with
    | nil => rfl
    | cons c rest =>
      unfold Search.chunkListGo
      rw [List.flatten_cons]
      rw [ih ((c :: rest).drop (max b 1)) (by
        rw [List.length_drop, List.length_cons]
        have : 1 ≤ max b 1 := Nat.le_max_right b 1
        rw [List.length_cons] at hl
        omega)]
      exact List.take_append_drop _ _

/-- The batch loop output is the flattened per-file results of the files
of a prefix of the batches, the whole input or cut at the engine
ceiling. -/
theorem runBatches_eq_prefix (engineMax : Nat)
    (g : Search.FileEntry → List Search.ResultRec) :
    ∀ (batches : List (List Search.FileEntry)) (acc : List Search.ResultRec),
      ∃ k, Search.runBatches engineMax g acc batches =
        acc ++ ((((batches.take k).flatten).map g).flatten) := by
  intro batches
  induction batches with
  | nil =>
    intro acc
    exact ⟨0, by simp [Search.runBatches]⟩
  | cons b bs ih =>
    intro acc
    unfold Search.runBatches
    by_cases hstop : engineMax ≤ (acc ++ (b.map g).flatten).length
    · refine ⟨1, ?_⟩
      rw [if_pos hstop]
      simp
    · rw [if_neg hstop]
      obtain ⟨k, hk⟩ := ih (acc ++ (b.map g).flatten)
      refine ⟨k + 1, ?_⟩
      rw [hk]
      simp [List.map_append, List.flatten_append, List.append_assoc]

/-- processFilesInBatches runs the per-file search over a prefix of the
file list and flattens the outcome. -/
theorem processFilesInBatches_eq_prefix (batchSize engineMax : Nat)
    (g : Search.FileEntry → List Search.ResultRec) (files : List Search.FileEntry) :
    ∃ pre t, files = pre ++ t ∧
      Search.processFilesInBatches batchSize engineMax g files = ((pre.map g).flatten) := by
  obtain ⟨k, hk⟩ := runBatches_eq_prefix engineMax g
    (Search.chunkList batchSize files) []
  refine ⟨((Search.chunkList batchSize files).take k).flatten,
    ((Search.chunkList batchSize files).drop k).flatten, ?_, ?_⟩
  · conv_lhs => rw [show files = (Search.chunkList batchSize files).flatten from
      (chunkListGo_flatten batchSize files.length files (Nat.le_refl _)).symm]
    rw [← List.flatten_append, List.take_append_drop]
  · unfold Search.processFilesInBatches
    rw [hk]
    simp

/-- The (file, line) distinctness relation is symmetric. -/
theorem keyNe_symm : ∀ {a b : Search.ResultRec}, Search.keyNe a b → Search.keyNe b a := by
  intro a b h hc
  exact h ⟨hc.1.symm, hc.2.symm⟩

/-- C1 (amended): for every file universe whose entries have pairwise
distinct relative paths, every options and every caller ceiling
maxResults, smartSearch returns at most maxResults matches, sorted by
relevance score descending then file path ascending, and no two returned
results share the same (file, line) pair.  (Distinctness of the relative
paths is needed: overlapping search roots can present two distinct files
under one relative path, and smartSearch deduplicates only within a
file — see the counterexample.) -/
theorem smartSearch_ceiling_sorted_nodup (batchSize engineMax maxFiles maxResults : Nat)
    (rawOf : Search.FileEntry → List Search.RawMatch) (files : List Search.FileEntry)
    (hnd : (files.map Search.FileEntry.relativePath).Nodup) :
    (Search.smartSearch batchSize engineMax maxFiles maxResults rawOf files).length ≤
      maxResults ∧
    List.Sorted Search.resLe
      (Search.smartSearch batchSize engineMax maxFiles maxResults rawOf files) ∧
    List.Pairwise Search.keyNe
      (Search.smartSearch batchSize engineMax maxFiles maxResults rawOf files) := by
  have hdef : Search.smartSearch batchSize engineMax maxFiles maxResults rawOf files =
      (List.insertionSort Search.resLe
        (Search.processFilesInBatches batchSize engineMax (Search.searchFunction rawOf)
          (files.take maxFiles))).take maxResults := rfl
  rw [hdef]
  obtain ⟨pre, t, hsplit, hout⟩ := processFilesInBatches_eq_prefix batchSize engineMax
    (Search.searchFunction rawOf) (files.take maxFiles)
  refine ⟨?_, ?_, ?_⟩
  · exact List.length_take_le _ _
  · exact (List.sorted_insertionSort Search.resLe _).sublist (List.take_sublist _ _)
  · rw [hout]
    have hpre_sub : pre.Sublist files := by
      have h1 : pre.Sublist (files.take maxFiles) := by
        rw [hsplit]
        exact List.sublist_append_left pre t
      exact h1.trans (List.take_sublist _ _)
    have hndpre : List.Pairwise
        (fun a b : Search.FileEntry => a.relativePath ≠ b.relativePath) pre := by
      have := hnd
      rw [List.Nodup, List.pairwise_map] at this
      exact this.sublist hpre_sub
    have hflat : List.Pairwise Search.keyNe ((pre.map (Search.searchFunction rawOf)).flatten) := by
      rw [List.pairwise_flatten]
      constructor
      · intro l hl
        rw [List.mem_map] at hl
        obtain ⟨f, _, rfl⟩ := hl
        exact searchFunction_pairwise rawOf f
      · rw [List.pairwise_map]
        refine hndpre.imp ?_
        intro f1 f2 hne a ha b hb
        intro hcontra
        have ha2 := searchFunction_file rawOf f1 a ha
        have hb2 := searchFunction_file rawOf f2 b hb
        exact hne (ha2 ▸ hb2 ▸ hcontra.1)
    have hperm := List.perm_insertionSort Search.resLe
      ((pre.map (Search.searchFunction rawOf)).flatten)
    exact ((hperm.pairwise_iff keyNe_symm).mpr hflat).sublist (List.take_sublist _ _)

/-- C1 witness: a two-file universe with distinct relative paths satisfies
all three properties. -/
theorem smartSearch_ceiling_sorted_nodup_witness :
    ([Fix.fileW1, Fix.fileW2].map Search.FileEntry.relativePath).Nodup ∧
    ((Search.smartSearch 500 500 20000 500 Fix.rawOne [Fix.fileW1, Fix.fileW2]).length ≤ 500 ∧
      List.Sorted Search.resLe
        (Search.smartSearch 500 500 20000 500 Fix.rawOne [Fix.fileW1, Fix.fileW2]) ∧
      List.Pairwise Search.keyNe
        (Search.smartSearch 500 500 20000 500 Fix.rawOne [Fix.fileW1, Fix.fileW2])) :=
  ⟨by decide,
   smartSearch_ceiling_sorted_nodup 500 500 20000 500 Fix.rawOne [Fix.fileW1, Fix.fileW2]
     (by decide)⟩

/-- C1 counterexample: two distinct files under two search roots share the
relative path a.txt; smartSearch returns both matches carrying the same
(file, line) pair (a.txt, 1) — cross-file deduplication by (file, line)
does not happen. -/
theorem smartSearch_dup_pair_counterexample :
    (Search.smartSearch 500 500 20000 500 Fix.rawOne [Fix.fileDupA, Fix.fileDupB]).map
      (fun r => (r.file, r.line)) = [("a.txt", 1), ("a.txt", 1)] ∧
    Fix.fileDupA ≠ Fix.fileDupB := by
  constructor
  · decide
  · decide

/-- C5 witness: the concrete configuration_source dependency of the
scenario is emitted and carries no table name. -/
theorem configuration_table_resolution_amended_witness :
    Fix.c5dep ∈ Trav.traceConfigurationSource Fix.c5oracle "ConfigStore.colPlanList" ∧
    Fix.c5dep.table = none :=
  ⟨by decide,
   configuration_table_resolution_amended.2 Fix.c5oracle "ConfigStore.colPlanList"
     Fix.c5dep (by decide)⟩
